import Mathlib

/-!
# Notarization fork-choice of `src/rpc/pbaasrpc.cpp`

A shallow embedding of `GetNotarizationData` (pbaasrpc.cpp, lines 283-438), of the body of
`getcrossnotarization` (lines 592-770) and of the pieces of chain state they read, followed
by the properties established about them.

Conventions of the embedding.

* `uint256` / `uint160` values are natural numbers.
* A C++ function that can end by `throw` or by undefined behaviour returns an `Outcome`.
* `std::multimap` containers are lists: `sorted` is kept in iteration order (ascending key,
  equal keys in insertion order), `references` is kept in insertion order.
-/

namespace PBaaS

abbrev uint256 := Nat
abbrev uint160 := Nat

/-- How a call of a C++ function ends: by a thrown `JSONRPCError`, by an operation whose
behaviour the language leaves undefined (reading `back()` of an empty vector, addressing a
vector element beyond its end), or by returning a value. -/
inductive Outcome (α : Type) where
  | threw (code : String)
  | undefined
  | ret (a : α)
deriving DecidableEq, Repr

/-- The fields of `CPBaaSNotarization` that pbaasrpc.cpp reads: `IsValid()`,
`prevNotarization`, `crossNotarization` and `compactPower`. -/
structure CPBaaSNotarization where
  valid : Bool
  prevNotarization : uint256
  crossNotarization : uint256
  compactPower : uint256
deriving DecidableEq, Repr

/-- The fields of `CPBaaSChainDefinition` that pbaasrpc.cpp reads. -/
structure CPBaaSChainDefinition where
  valid : Bool
  name : String
  endBlock : Int
deriving DecidableEq, Repr

/-- What `IsPayToCryptoCondition(o.scriptPubKey, p, notarization)` yields for an output when it
succeeds: the destination ids of `p.vKeys` (each already passed through `GetDestinationID`)
and the decoded notarization. -/
structure COptCCParams where
  vKeys : List uint160
deriving DecidableEq, Repr

/-- A transaction output: `cc` is `some (p, notarization)` exactly when
`IsPayToCryptoCondition` succeeds on its script. -/
structure CTxOut where
  cc : Option (COptCCParams × CPBaaSNotarization)
  isOpReturn : Bool
deriving DecidableEq, Repr

/-- The outpoint an input of a transaction spends. -/
structure COutPoint where
  hash : uint256
  n : Nat
deriving DecidableEq, Repr

/-- A transaction, with the two objects pbaasrpc.cpp constructs from it:
`CPBaaSChainDefinition(tx)` and `CPBaaSNotarization(tx)`. -/
structure CTransaction where
  hash : uint256
  chainDef : CPBaaSChainDefinition
  notarization : CPBaaSNotarization
  vout : List CTxOut
  vin : List COutPoint := []
deriving DecidableEq, Repr

/-- Key of an entry of the unspent-output index (`it->first`). -/
structure CAddressUnspentKey where
  txhash : uint256
  index : Nat
deriving DecidableEq, Repr

/-- The chain state and helpers `GetNotarizationData` consults, none of which is defined in
pbaasrpc.cpp: the constant `PBAAS_VERSION`, `CCrossChainRPCData::GetConditionID`,
`GetAddressUnspent` (`none` when it returns false), `myGetTransaction` (`none` when it returns
false, otherwise the transaction and the hash of its block) and `mapBlockIndex` (`none` when
`find` returns `end()`, otherwise `GetHeight()` of the entry). -/
structure ChainState where
  PBAAS_VERSION : Nat
  EVAL_FINALIZENOTARIZATION : Nat
  GetConditionID : uint160 → Nat → uint160
  GetAddressUnspent : uint160 → Option (List CAddressUnspentKey)
  myGetTransaction : uint256 → Option (CTransaction × uint256)
  mapBlockIndex : uint256 → Option Int

/-- The computed notarization data (`CChainNotarizationData`). -/
structure CChainNotarizationData where
  version : Nat
  vtx : List (uint256 × CPBaaSNotarization)
  lastConfirmed : Int
  forks : List (List Nat)
  bestChain : Int
deriving DecidableEq, Repr

/-- Modelled from the spec: the default-constructed `CChainNotarizationData nData;` that both
callers (`getnotarizationdata`, `getcrossnotarization`) pass in; the class declaration is not
among the sources. The data is "computed, not stored" and built fresh per request, so it
starts with no entries and no forks. -/
def CChainNotarizationData.fresh : CChainNotarizationData :=
  { version := 0, vtx := [], lastConfirmed := 0, forks := [], bestChain := 0 }

/-- Modelled from the spec: `CChainPower`, whose declaration is not among the sources: "a
total-ordering scalar/tuple derived from a notarization's compactPower field plus a
tie-breaking fork index". `power` is the magnitude, `nHeight` the field read at line 435. -/
structure CChainPower where
  power : Nat
  nHeight : Int
deriving DecidableEq, Repr

/-- Modelled from the spec: the default-constructed `CChainPower best;` (line 422), the zero
power. -/
def CChainPower.default : CChainPower := { power := 0, nHeight := 0 }

/-- Modelled from the spec: `ExpandCompactPower(compactPower, i)` (line 429), "power value
plus fork index": the magnitude comes from `compactPower`, the second argument is stored
in `nHeight`. -/
def ExpandCompactPower (compactPower : uint256) (height : Int) : CChainPower :=
  { power := compactPower, nHeight := height }

/-- Modelled from the spec: `operator>` of `CChainPower` (line 430), "strictly greater power
wins". -/
def CChainPower.gt (a b : CChainPower) : Bool := decide (b.power < a.power)

/-! ## Lines 298-328: resolving the unspent outputs -/

/-- `std::multimap::emplace` on a container kept in iteration order: the new entry goes after
every entry whose key is not greater (equal keys keep insertion order). -/
def multimapEmplace {β : Type} (k : Int) (v : β) : List (Int × β) → List (Int × β)
  | [] => [(k, v)]
  | e :: rest => if k < e.1 then (k, v) :: e :: rest else e :: multimapEmplace k v rest

/-- The locals `chainDef` and `sorted` carried through the loop of lines 302-328. -/
structure ScanState where
  chainDef : CPBaaSChainDefinition
  sorted : List (Int × (uint256 × CPBaaSNotarization))
deriving DecidableEq, Repr

/-- The locals before the loop of lines 302-328: the default-constructed `chainDef`
(line 290), which is not valid, and the empty `sorted`. -/
def ScanState.init : ScanState :=
  { chainDef := { valid := false, name := "", endBlock := 0 }, sorted := [] }

/-- One iteration of the loop of lines 302-328, for a transaction that was read: keep the
first valid chain definition; a valid notarization whose block is in `mapBlockIndex` is put
into `sorted` under the block's height, paired with `blkit->first`, the key of the
`mapBlockIndex` entry (the block hash). -/
def scanTx (env : ChainState) (st : ScanState) (ntx : CTransaction) (blkHash : uint256) :
    ScanState :=
  let chainDef := if !st.chainDef.valid then ntx.chainDef else st.chainDef
  let notarization := ntx.notarization
  if notarization.valid then
    match env.mapBlockIndex blkHash with
    | some height =>
        { chainDef := chainDef
          sorted := multimapEmplace height (blkHash, notarization) st.sorted }
    | none => { chainDef := chainDef, sorted := st.sorted }
  else { chainDef := chainDef, sorted := st.sorted }

/-- The loop of lines 302-328; an unreadable transaction throws. -/
def scanOutputs (env : ChainState) :
    List CAddressUnspentKey → ScanState → Outcome ScanState
  | [], st => .ret st
  | o :: rest, st =>
      match env.myGetTransaction o.txhash with
      | some (ntx, blkHash) => scanOutputs env rest (scanTx env st ntx blkHash)
      | none => .threw "cannot retrieve transaction"

/-! ## Lines 337-367: the confirmed root -/

/-- The loop of lines 351-361 over `rootTx.vout`: every output that decodes to a valid
notarization and whose first key is the finalization address appends an entry under the id
`prevId` and sets `lastConfirmed` to its index. The pair is (`vtx`, `lastConfirmed`). -/
def rootLoop (keyID : uint160) (prevId : uint256) :
    List CTxOut → List (uint256 × CPBaaSNotarization) × Int →
      List (uint256 × CPBaaSNotarization) × Int
  | [], acc => acc
  | o :: rest, acc =>
      match o.cc with
      | some (p, notarization) =>
          if notarization.valid && (!p.vKeys.isEmpty && p.vKeys.head? == some keyID) then
            let vtx := acc.1 ++ [(prevId, notarization)]
            rootLoop keyID prevId rest (vtx, (vtx.length : Int) - 1)
          else rootLoop keyID prevId rest acc
      | none => rootLoop keyID prevId rest acc

/-! ## Lines 369-420: building the forks -/

/-- The containers the loop of lines 382-420 updates: `notarizationData.forks` and the
multimap `references` (txid ↦ (fork index, index in the fork)), the latter in insertion
order; and the capacity of the vector `forks`, which decides whether a `push_back`
reallocates. A vector that was not grown by the loop has the capacity of its size, 0 for
the default-constructed object the callers pass. -/
structure ForkState where
  forks : List (List Nat)
  references : List (uint256 × (Nat × Nat))
  capacity : Nat := forks.length
deriving DecidableEq, Repr

/-- The capacity of a `std::vector` after a `push_back` at the given size and capacity, as
libstdc++ and libc++ grow it: unchanged while there is room, otherwise twice the size (1
for an empty vector), with a reallocation that invalidates the references to its
elements. -/
def pushCapacity (size capacity : Nat) : Nat :=
  if size < capacity then capacity else max 1 (2 * size)

/-- `references.find(key)`: the earliest inserted entry with that key (the lower-bound search
of the usual library implementations). -/
def referencesFind (references : List (uint256 × (Nat × Nat))) (key : uint256) :
    Option (Nat × Nat) :=
  (references.find? (fun r => r.1 == key)).map Prod.snd

/-- One iteration of the loop of lines 382-420 for index `i` and entry `nzp`.

* Parent found at the end of its fork (`it->second.second == fork.size() - 1`; the unsigned
  wrap-around of `fork.size() - 1` at size 0 equals no position): `i` is pushed onto it.
* Parent found elsewhere: `forks.push_back(vector<int32_t>(&fork[0], &fork[pos]))` appends
  the half-open range `[0, pos)` of the fork as a new fork; `fork` is a C++ reference to
  `forks[chain]`, so `fork = forks.back()` assigns that copy to `forks[chain]` and
  `fork.push_back(i)` extends `forks[chain]`. `chainIdx` is the index of the new fork,
  `posIdx` is `fork.size() - 1`. `&fork[pos]` with `pos` not below the size of the fork is
  undefined, and so are lines 405-406 when the `push_back` of line 404 reallocates `forks`
  (no room left in its capacity): the reference `fork` then dangles.
* Parent not found: a new one-element fork; no reference is held across this `push_back`. -/
def forkStep (st : ForkState) (i : Nat) (nzp : uint256 × CPBaaSNotarization) :
    Option ForkState :=
  match referencesFind st.references nzp.2.prevNotarization with
  | some (chain, pos) =>
      match st.forks[chain]? with
      | none => none
      | some fork =>
          if pos + 1 = fork.length then
            let fork1 := fork ++ [i]
            some { forks := st.forks.set chain fork1
                   references := st.references ++ [(nzp.1, (chain, fork1.length - 1))]
                   capacity := st.capacity }
          else if pos < fork.length ∧ st.forks.length < st.capacity then
            let forks1 := st.forks ++ [fork.take pos]
            let fork1 := fork.take pos ++ [i]
            let forks2 := forks1.set chain fork1
            some { forks := forks2
                   references := st.references ++ [(nzp.1, (forks2.length - 1, fork1.length - 1))]
                   capacity := st.capacity }
          else none
  | none =>
      let forks1 := st.forks ++ [[i]]
      some { forks := forks1
             references := st.references ++ [(nzp.1, (forks1.length - 1, 0))]
             capacity := pushCapacity st.forks.length st.capacity }

/-- The loop of lines 382-420 from index `i` on, over the remaining entries of `vtx`. -/
def forkLoop : List (uint256 × CPBaaSNotarization) → Nat → ForkState → Option ForkState
  | [], _, st => some st
  | nzp :: rest, i, st =>
      match forkStep st i nzp with
      | some st1 => forkLoop rest (i + 1) st1
      | none => none

/-! ## Lines 422-436: the best fork -/

/-- The loop of lines 427-434 from fork index `i` on: the power of the tip of each fork is
expanded with the fork index and replaces `best` when strictly greater. `back()` of an empty
fork is undefined. -/
def bestLoop (vtx : List (uint256 × CPBaaSNotarization)) :
    List (List Nat) → Nat → CChainPower → Option CChainPower
  | [], _, best => some best
  | fork :: rest, i, best =>
      match fork.getLast? with
      | none => none
      | some tip =>
          match vtx[tip]? with
          | none => none
          | some nzp =>
              let curPower := ExpandCompactPower nzp.2.compactPower (i : Int)
              bestLoop vtx rest (i + 1) (if curPower.gt best then curPower else best)

/-! ## `GetNotarizationData` -/

/-- Lines 337-436, after `sorted` was found non-empty with first entry `first`. -/
def buildNotarizationData (env : ChainState) (keyID : uint160) (scan : ScanState)
    (first : Int × (uint256 × CPBaaSNotarization)) (nd : CChainNotarizationData) :
    Outcome (Bool × CChainNotarizationData) :=
  let nd0 := { nd with lastConfirmed := 0 }
  let rooted : Option CChainNotarizationData :=
    if !scan.chainDef.valid then
      match env.myGetTransaction first.2.2.prevNotarization with
      | none => none
      | some (rootTx, _) =>
          let r := rootLoop keyID first.2.2.prevNotarization rootTx.vout (nd0.vtx, nd0.lastConfirmed)
          some { nd0 with vtx := r.1, lastConfirmed := r.2 }
    else some { nd0 with lastConfirmed := -1 }
  match rooted with
  | none => .ret (false, nd0)
  | some nd1 =>
      let vtx := nd1.vtx ++ scan.sorted.map Prod.snd
      match forkLoop vtx 0
          { forks := nd1.forks, references := [], capacity := nd1.forks.length } with
      | none => .undefined
      | some fs =>
          match bestLoop vtx fs.forks 0 CChainPower.default with
          | none => .undefined
          | some best =>
              .ret (true, { nd1 with vtx := vtx, forks := fs.forks, bestChain := best.nHeight })

/-- `GetNotarizationData` (lines 283-438). The result pairs the returned `bool` with the final
value of the in/out argument `notarizationData`. -/
def GetNotarizationData (env : ChainState) (chainID : uint160) (ecode : Nat)
    (notarizationData : CChainNotarizationData) : Outcome (Bool × CChainNotarizationData) :=
  let nd := { notarizationData with version := env.PBAAS_VERSION }
  let keyID := env.GetConditionID chainID env.EVAL_FINALIZENOTARIZATION
  match env.GetAddressUnspent keyID with
  | none => .ret (false, nd)
  | some unspentOutputs =>
      match scanOutputs env unspentOutputs ScanState.init with
      | .threw code => .threw code
      | .undefined => .undefined
      | .ret scan =>
          match scan.sorted with
          | [] => .ret (false, nd)
          | first :: _ => buildNotarizationData env keyID scan first nd

/-! ## `getcrossnotarization`, lines 592-770 -/

/-- Type codes of the objects of a proof bundle (`CHAIN_OBJECT_TYPES`), as far as
pbaasrpc.cpp names them. -/
inductive CHAIN_OBJECT_TYPES where
  | CHAINOBJ_HEADER
  | CHAINOBJ_PROOF
  | CHAINOBJ_TRANSACTION
deriving DecidableEq, Repr

/-- A block header, reduced to the hash of the block it belongs to. -/
structure CBlockHeader where
  blockHash : uint256
deriving DecidableEq, Repr

/-- A Merkle branch (`CMerkleBranch(nIndex, branch)`): the leaf index and the hashes. -/
structure CMerkleBranch where
  nIndex : Int
  branch : List uint256
deriving DecidableEq, Repr

/-- A transaction under construction (`CMutableTransaction`): inputs and outputs. -/
structure CMutableTransaction where
  vin : List COutPoint
  vout : List CTxOut
deriving DecidableEq, Repr

/-- The payload of a `CChainObject<T>`. -/
inductive ChainObjectPayload where
  | header (bh : CBlockHeader)
  | proof (branch : CMerkleBranch)
  | transaction (tx : CMutableTransaction)
deriving DecidableEq, Repr

/-- A `CChainObject<T>(objectType, object)`, what the pointers pushed onto `chainObjects`
point to. -/
structure CBaseChainObject where
  objectType : CHAIN_OBJECT_TYPES
  object : ChainObjectPayload
deriving DecidableEq, Repr

/-- Key of an entry of the address index (`addressIndex[i].first`): the transaction hash and
the index of the transaction in its block. -/
structure CAddressIndexKey where
  txhash : uint256
  txindex : Nat
deriving DecidableEq, Repr

/-- A connected peer (`CNode`), with the members lines 734-743 read. -/
structure CNode where
  addr : String
  hashPaymentAddress : uint160
  fSuccessfullyConnected : Bool
  fInbound : Bool
deriving DecidableEq, Repr

/-- A peer of the new notarization, `CNodeData(networkAddress, paymentAddress)`. -/
structure CNodeData where
  networkAddress : String
  paymentAddress : uint160
deriving DecidableEq, Repr

/-- What `getcrossnotarization` consults besides the chain state of `GetNotarizationData`,
none of it defined in pbaasrpc.cpp: the two evaluation codes, `GetTransaction` (`none` when
it returns false), the active chain (`Height()`, the root of the Merkle mountain view at a
height, `GetBlockProof`, header and hash of the block at a height, `GetMerkleProof`),
`ReadBlockFromDisk` and `GetMerkleBranch` of a block given by its hash, `GetAddressIndex`
(`none` when it returns false), the hash of a transaction built from a
`CMutableTransaction`, `GetCompactPower` of a block index, the type code the overload
`COpRetProof::AddObject(CBlockHeader, uint256)` records, the connected peers `vNodes`, and
`GetRandInt` (a function of its argument: the loop of lines 748-752 calls it with a
different argument each time). -/
structure NodeState where
  chain : ChainState
  EVAL_ACCEPTEDNOTARIZATION : Nat
  EVAL_EARNEDNOTARIZATION : Nat
  GetTransaction : uint256 → Option (CTransaction × uint256)
  chainActiveHeight : Int
  GetRoot : Int → uint256
  GetBlockProof : Int → CMerkleBranch
  GetBlockHeader : Int → CBlockHeader
  GetBlockHash : Int → uint256
  GetMerkleProof : Int → CMerkleBranch → Int → CMerkleBranch
  ReadBlockFromDisk : uint256 → Bool
  GetMerkleBranch : uint256 → Nat → List uint256
  GetAddressIndex : uint160 → Int → Int → Option (List CAddressIndexKey)
  GetHash : CMutableTransaction → uint256
  GetCompactPower : uint256 → uint256
  ObjTypeCode : CBlockHeader → CHAIN_OBJECT_TYPES
  vNodes : List CNode
  GetRandInt : Nat → Nat

/-- Modelled from the spec: `CChainNotarizationData::IsConfirmed()`, whose declaration is not
among the sources: there is a confirmed entry unless `lastConfirmed` is the sentinel
"none confirmed, only chain-definition known", -1. -/
def CChainNotarizationData.IsConfirmed (nd : CChainNotarizationData) : Bool :=
  nd.lastConfirmed != -1

/-- A value of the result object: a hash written by `GetHex()` or a transaction written by
`EncodeHexTx`. -/
inductive RetValue where
  | hex (h : uint256)
  | rawtx (tx : CTransaction)
deriving DecidableEq, Repr

/-- The locals `tx`, `ourLast`, `blkHash`, `found` (lines 597-600) and the result object
`ret`, a list of key-value pairs in the order of the `push_back` calls. -/
structure MatchState where
  tx : CTransaction
  ourLast : CPBaaSNotarization
  blkHash : uint256
  found : Bool
  ret : List (String × RetValue)
deriving DecidableEq, Repr

/-- The locals as declared at lines 597-600: default-constructed `tx`, `ourLast` and
`blkHash`, `found = false`, and the empty object `ret` of line 540. -/
def MatchState.init : MatchState :=
  { tx :=
      { hash := 0
        chainDef := { valid := false, name := "", endBlock := 0 }
        notarization :=
          { valid := false, prevNotarization := 0, crossNotarization := 0, compactPower := 0 }
        vout := [] }
    ourLast :=
      { valid := false, prevNotarization := 0, crossNotarization := 0, compactPower := 0 }
    blkHash := 0
    found := false
    ret := [] }

/-- The test and body shared by lines 605-612 and 621-628 for the entry `nzp`:
`GetTransaction(nzp.first, tx, blkHash, true) && (ourLast = CPBaaSNotarization(tx)).IsValid()`.
A call of `GetTransaction` that fails leaves `tx` and `blkHash` as they were; one that
succeeds overwrites them, and `ourLast` with them. When the notarization is valid `found` is
set and the three pairs are pushed onto `ret`, with `crosstxid` as the first value. -/
def matchStep (st : NodeState) (ms : MatchState) (nzp : uint256 × CPBaaSNotarization)
    (crosstxid : uint256) : MatchState :=
  match st.GetTransaction nzp.1 with
  | none => ms
  | some (tx, blkHash) =>
      let ms1 := { ms with tx := tx, blkHash := blkHash, ourLast := tx.notarization }
      if tx.notarization.valid then
        { ms1 with
          found := true
          ret := ms1.ret ++
            [("crosstxid", .hex crosstxid), ("txid", .hex nzp.1), ("rawtx", .rawtx tx)] }
      else ms1

/-- The loop of lines 617-629, over `vtx` from the last index down to 0. For every entry the
body of `matchStep` runs with the entry's `crossNotarization` as `crosstxid`; the iterator
`nit = txids.find(nzp.second.crossNotarization)` of line 620 is never read, and there is no
`break`. -/
def reverseLoop (st : NodeState) (vtx : List (uint256 × CPBaaSNotarization))
    (ms : MatchState) : MatchState :=
  vtx.reverse.foldl (fun acc nzp => matchStep st acc nzp nzp.2.crossNotarization) ms

/-- Lines 603-630: the bootstrap test and the two branches. The last conjunct of line 603 is
`!nData.vtx.size() != 0`, that is `(!nData.vtx.size()) != 0`. `none` stands for the
undefined read of `nData.vtx[0]` on an empty `vtx`. -/
def findMatch (st : NodeState) (ecode : Nat) (txids : List uint256)
    (nData : CChainNotarizationData) : Option MatchState :=
  if txids.length == 0 && ecode == st.EVAL_ACCEPTEDNOTARIZATION && !nData.IsConfirmed
      && ((!(nData.vtx.length != 0)) != false) then
    match nData.vtx[0]? with
    | none => none
    | some nzp => some (matchStep st MatchState.init nzp 0)
  else some (reverseLoop st nData.vtx MatchState.init)

/-- Lines 666-674: the first index of `addressIndex` whose `txhash` is `txHash`, or
`addressIndex.size()` when there is none. -/
def findTxIndex (txHash : uint256) : List CAddressIndexKey → Nat
  | [] => 0
  | e :: rest => if e.txhash == txHash then 0 else findTxIndex txHash rest + 1

/-- What lines 639-679 establish: the proof height, the height of the block of the matched
transaction, the address index entries of that height, and the index `i` found in them. -/
structure Located where
  proofheight : Int
  prevHeight : Int
  addressIndex : List CAddressIndexKey
  i : Nat
deriving DecidableEq, Repr

/-- Lines 639-679. `mapBlockIndex.find(blkHash)->second` is undefined when the block is not
in the map; an unreadable block, a failing `GetAddressIndex` and a transaction hash that is
in none of the entries each throw `RPC_INTERNAL_ERROR`. -/
def locateTx (st : NodeState) (chainID : uint160) (tx : CTransaction) (blkHash : uint256) :
    Outcome Located :=
  match st.chain.mapBlockIndex blkHash with
  | none => .undefined
  | some prevHeight =>
      if !st.ReadBlockFromDisk blkHash then .threw "Can't read block from disk"
      else
        let keyID := st.chain.GetConditionID chainID st.chain.EVAL_FINALIZENOTARIZATION
        match st.GetAddressIndex keyID prevHeight prevHeight with
        | none => .threw "Address index read error - possible corruption in address index"
        | some addressIndex =>
            let i := findTxIndex tx.hash addressIndex
            if i == addressIndex.length then
              .threw "Notarization not found in address index - possible corruption"
            else
              .ret { proofheight := st.chainActiveHeight, prevHeight := prevHeight
                     addressIndex := addressIndex, i := i }

/-- Lines 703-709: `CMutableTransaction mtx(tx)`, from which the last output is popped when
it is an op-return. `mtx.vout[mtx.vout.size() - 1]` is undefined (`none`) when the
transaction has no output. -/
def stripOpRet (tx : CTransaction) : Option CMutableTransaction :=
  match tx.vout.getLast? with
  | none => none
  | some last =>
      if last.isOpReturn then some { vin := tx.vin, vout := tx.vout.dropLast }
      else some { vin := tx.vin, vout := tx.vout }

/-- The loop of lines 734-743, `for (int j = 0; j < vNodes.size(); i++)`, on the peers from
index `i` on: `j` stays 0, so the loop does not end while `vNodes[i]` exists; each
`vNodes[i]` that is connected and not inbound is pushed onto `nodes`, and the read of
`vNodes[i]` past the last peer is undefined. -/
def peerLoop : List CNode → List CNodeData → Outcome (List CNodeData)
  | [], _ => .undefined
  | node :: rest, nodes =>
      peerLoop rest
        (if node.fSuccessfullyConnected && !node.fInbound then
          nodes ++ [{ networkAddress := node.addr, paymentAddress := node.hashPaymentAddress }]
        else nodes)

/-- Lines 730-745: nothing is done when `vNodes` is empty; otherwise the loop runs with `i`
as left by the search of lines 668-674. -/
def collectPeers (vNodes : List CNode) (i : Nat) : Outcome (List CNodeData) :=
  if vNodes.isEmpty then .ret [] else peerLoop (vNodes.drop i) []

/-- `MAX_NODES` (line 728). -/
def MAX_NODES : Nat := 2

/-- The loop of lines 748-752; `fuel` bounds the number of iterations and is the initial
length of `nodes`. -/
def reduceNodes (GetRandInt : Nat → Nat) : Nat → List CNodeData → List CNodeData
  | 0, nodes => nodes
  | fuel + 1, nodes =>
      if nodes.length > MAX_NODES then
        reduceNodes GetRandInt fuel (nodes.eraseIdx (GetRandInt (nodes.length - 1)))
      else nodes

/-- The arguments of the constructor call of lines 755-764 that depend on the call: the
proof height, the root, the compact power, the cross notarization (`uint256()`, 0), the
matched transaction as `prevNotarization` with its height, the op-return proof and the
peers. -/
structure ProposedNotarization where
  notarizationHeight : Int
  mmrRoot : uint256
  compactPower : uint256
  crossNotarization : uint256
  crossHeight : Int
  prevNotarization : uint256
  prevHeight : Int
  opRetProof : List (CHAIN_OBJECT_TYPES × uint256)
  nodes : List CNodeData
deriving DecidableEq, Repr

/-- The locals at line 766: the objects `chainObjects` points to, the entries of the
op-return proof `orp` (type and hash), the branch `txProof` as constructed at line 699,
the peers and the new notarization. -/
structure CrossLocals where
  chainObjects : List CBaseChainObject
  orp : List (CHAIN_OBJECT_TYPES × uint256)
  txProofLeaf : CMerkleBranch
  nodes : List CNodeData
  notarization : ProposedNotarization
deriving DecidableEq, Repr

/-- Lines 683-764, after the transaction was located. The second `push_back` (line 695)
pushes `&latestHeaderObj` again; the object `latestHeaderProof` of line 694 is pushed
nowhere, and the second entry of `orp` comes from `AddObject(bh, ...)`. -/
def buildProof (st : NodeState) (tx : CTransaction) (blkHash : uint256) (loc : Located) :
    Outcome CrossLocals :=
  let bh := st.GetBlockHeader loc.proofheight
  let latestHeaderObj : CBaseChainObject := { objectType := .CHAINOBJ_HEADER, object := .header bh }
  let tipHash := st.GetBlockHash loc.proofheight
  match loc.addressIndex[loc.i]? with
  | none => .undefined
  | some key =>
      let txProofLeaf : CMerkleBranch :=
        { nIndex := loc.i, branch := st.GetMerkleBranch blkHash key.txindex }
      let txProof := st.GetMerkleProof loc.proofheight txProofLeaf loc.prevHeight
      match stripOpRet tx with
      | none => .undefined
      | some strippedTx =>
          let strippedTxObj : CBaseChainObject :=
            { objectType := .CHAINOBJ_TRANSACTION, object := .transaction strippedTx }
          let txProofObj : CBaseChainObject :=
            { objectType := .CHAINOBJ_PROOF, object := .proof txProof }
          let chainObjects := [latestHeaderObj, latestHeaderObj, strippedTxObj, txProofObj]
          let orp := [(CHAIN_OBJECT_TYPES.CHAINOBJ_HEADER, tipHash), (st.ObjTypeCode bh, tipHash),
            (CHAIN_OBJECT_TYPES.CHAINOBJ_TRANSACTION, st.GetHash strippedTx),
            (CHAIN_OBJECT_TYPES.CHAINOBJ_PROOF, tx.hash)]
          match collectPeers st.vNodes loc.i with
          | .threw code => .threw code
          | .undefined => .undefined
          | .ret collected =>
              let nodes := reduceNodes st.GetRandInt collected.length collected
              .ret
                { chainObjects := chainObjects
                  orp := orp
                  txProofLeaf := txProofLeaf
                  nodes := nodes
                  notarization :=
                    { notarizationHeight := loc.proofheight
                      mmrRoot := st.GetRoot loc.proofheight
                      compactPower := st.GetCompactPower blkHash
                      crossNotarization := 0
                      crossHeight := 0
                      prevNotarization := tx.hash
                      prevHeight := loc.prevHeight
                      opRetProof := orp
                      nodes := nodes } }

/-- Lines 634-768, the block run when `found` is set. -/
def proofTail (st : NodeState) (chainID : uint160) (tx : CTransaction) (blkHash : uint256) :
    Outcome CrossLocals :=
  match locateTx st chainID tx blkHash with
  | .threw code => .threw code
  | .undefined => .undefined
  | .ret loc => buildProof st tx blkHash loc

/-- What a call leaves: the returned object `ret`, and, when the block of lines 634-768 ran,
its locals at line 766 (they are not returned by the source). -/
structure CrossResult where
  ret : List (String × RetValue)
  built : Option CrossLocals
deriving DecidableEq, Repr

/-- Lines 592-770 of `getcrossnotarization`, after the arguments were parsed into `chainID`,
`ecode` and the set `txids`. -/
def crossNotarizationFrom (st : NodeState) (chainID : uint160) (ecode : Nat)
    (txids : List uint256) : Outcome CrossResult :=
  match GetNotarizationData st.chain chainID ecode CChainNotarizationData.fresh with
  | .threw code => .threw code
  | .undefined => .undefined
  | .ret (false, _) => .ret { ret := [], built := none }
  | .ret (true, nData) =>
      match findMatch st ecode txids nData with
      | none => .undefined
      | some ms =>
          if ms.found then
            match proofTail st chainID ms.tx ms.blkHash with
            | .threw code => .threw code
            | .undefined => .undefined
            | .ret locals => .ret { ret := ms.ret, built := some locals }
          else .ret { ret := ms.ret, built := none }

/-! ## The RPC entry points: arguments, chain registry, merge mining -/

/-- A JSON value as the RPC layer passes it (`UniValue`), by type: `VNULL`, `VOBJ`, `VARR`,
`VSTR`, `VNUM`, `VBOOL`. -/
inductive UniValue where
  | null
  | obj
  | arr (values : List UniValue)
  | str (s : String)
  | num (n : Int)
  | bool (b : Bool)

/-- `UniValue::type()` as a number, in the order of the enumeration `VType`. -/
def UniValue.type : UniValue → Nat
  | .null => 0
  | .obj => 1
  | .arr _ => 2
  | .str _ => 3
  | .num _ => 4
  | .bool _ => 5

/-- `params[i]`: the `i`-th argument, the null value when there is none. -/
def paramAt (params : List UniValue) (i : Nat) : UniValue :=
  (params[i]?).getD .null

/-- `UniValue::get_str()`, which throws `std::runtime_error` on a value that is no string. -/
def UniValue.get_str : UniValue → Outcome String
  | .str s => .ret s
  | _ => .threw "JSON value is not a string as expected"

/-- `UniValue::get_bool()`, which throws `std::runtime_error` on a value that is no
boolean. -/
def UniValue.get_bool : UniValue → Outcome Bool
  | .bool b => .ret b
  | _ => .threw "JSON value is not a boolean as expected"

/-- `UniValue::get_int()`, which throws `std::runtime_error` on a value that is no number or
does not fit 32 bits. -/
def UniValue.get_int : UniValue → Outcome Int
  | .num n =>
      if -(2 : Int) ^ 31 ≤ n ∧ n < (2 : Int) ^ 31 then .ret n
      else .threw "JSON integer out of range"
  | _ => .threw "JSON value is not an integer as expected"

/-- A decoded block of a foreign chain, with its time. -/
structure CBlock where
  nTime : Int
  body : Nat
deriving DecidableEq, Repr

/-- A candidate of the merge-mining table,
`CPBaaSMergeMinedChainData(chainDef, rpchost, rpcport, rpcuserpass, blk)`. -/
structure CPBaaSMergeMinedChainData where
  chainDefinition : CPBaaSChainDefinition
  rpcHost : String
  rpcPort : Int
  rpcUserPass : String
  block : CBlock
deriving DecidableEq, Repr

/-- What the RPC entry points consult besides the node state, none of it defined in
pbaasrpc.cpp: `IsVerusActive()`, the macro `KOMODO_ASSETCHAIN_MAXLEN`, the key id of the
chain-definition address (`CCinit(&CC, EVAL_PBAASDEFINITION)`, `unspendableCCaddr`),
`uint160(ParseHex(s))` (`none` when it throws), `uint256S`, `GetAdjustedTime()`,
`CCrossChainRPCData::GetChainID`, `DecodeHexBlk` (`none` when it fails),
`ConnectedChains.GetChainInfo` (`none` when it returns false, otherwise the chain definition
of the data it yields), and, for the merge-mining table modelled from the spec, the time
and the estimated ROI of a candidate. -/
structure RpcContext where
  IsVerusActive : Bool
  KOMODO_ASSETCHAIN_MAXLEN : Nat
  definitionKeyID : uint160
  ParseChainID : String → Option uint160
  uint256S : String → uint256
  GetAdjustedTime : Int
  GetChainID : String → uint160
  DecodeHexBlk : String → Option CBlock
  GetChainInfo : List CPBaaSMergeMinedChainData → uint160 → Option CPBaaSChainDefinition
  entryTime : CPBaaSMergeMinedChainData → Int
  estimatedROI : CPBaaSMergeMinedChainData → Nat

/-- The loop of lines 107-120 of `GetChainDefinition` over the address index entries: the
definition of every readable transaction is assigned to `chainDef`, and the loop stops at
the first one that is valid and carries the requested name. The result is (`found`,
`chainDef`). -/
def definitionLoop (st : NodeState) (name : String) :
    List CAddressIndexKey → CPBaaSChainDefinition → Bool × CPBaaSChainDefinition
  | [], chainDef => (false, chainDef)
  | txidx :: rest, chainDef =>
      match st.chain.myGetTransaction txidx.txhash with
      | some (tx, _) =>
          if tx.chainDef.valid && tx.chainDef.name == name then (true, tx.chainDef)
          else definitionLoop st name rest tx.chainDef
      | none => definitionLoop st name rest chainDef

/-- `GetChainDefinition` (lines 89-123): the returned `bool` and the final value of the
in/out argument `chainDef`. `GetAddressIndex(id, 1, addressIndex)` is the call with the
default range (0, 0). -/
def GetChainDefinition (ctx : RpcContext) (st : NodeState) (name : String)
    (chainDef : CPBaaSChainDefinition) : Bool × CPBaaSChainDefinition :=
  match st.GetAddressIndex ctx.definitionKeyID 0 0 with
  | some addressIndex => definitionLoop st name addressIndex chainDef
  | none => (false, chainDef)

/-- The loop of lines 142-155 of `GetDefinedChains`: the definition of every readable
transaction is pushed onto `chains` and popped again when expired definitions are not
wanted and it has a non-zero `endBlock` below the current height. -/
def definedLoop (st : NodeState) (includeExpired : Bool) :
    List CAddressIndexKey → List CPBaaSChainDefinition → List CPBaaSChainDefinition
  | [], chains => chains
  | txidx :: rest, chains =>
      match st.chain.myGetTransaction txidx.txhash with
      | some (tx, _) =>
          let pushed := chains ++ [tx.chainDef]
          if !includeExpired && tx.chainDef.endBlock != 0
              && decide (tx.chainDef.endBlock < st.chainActiveHeight) then
            definedLoop st includeExpired rest pushed.dropLast
          else definedLoop st includeExpired rest pushed
      | none => definedLoop st includeExpired rest chains

/-- `GetDefinedChains` (lines 125-157): the final value of the in/out argument `chains`. -/
def GetDefinedChains (ctx : RpcContext) (st : NodeState)
    (chains : List CPBaaSChainDefinition) (includeExpired : Bool) :
    List CPBaaSChainDefinition :=
  match st.GetAddressIndex ctx.definitionKeyID 0 0 with
  | some addressIndex => definedLoop st includeExpired addressIndex chains
  | none => chains

/-- `getchaindefinition` (lines 159-221); the usage text thrown at lines 161-201 is written
"help". The result is the definition, or `none` for `NullUniValue`. -/
def getchaindefinition (ctx : RpcContext) (st : NodeState) ( fHelp : Bool)
    (params : List UniValue) : Outcome (Option CPBaaSChainDefinition) :=
  if fHelp || params.length != 1 then .threw "help"
  else
    match (paramAt params 0).get_str with
    | .threw code => .threw code
    | .undefined => .undefined
    | .ret name =>
        if name.utf8ByteSize > ctx.KOMODO_ASSETCHAIN_MAXLEN - 1 then
          .threw "Invalid chain name -- must be 64 characters or less"
        else
          let found := GetChainDefinition ctx st name
            { valid := false, name := "", endBlock := 0 }
          if found.1 then .ret (some found.2) else .ret none

/-- `getdefinedchains` (lines 223-281): the definitions in the order they are pushed onto
the result array. -/
def getdefinedchains (ctx : RpcContext) (st : NodeState) ( fHelp : Bool)
    (params : List UniValue) : Outcome (List CPBaaSChainDefinition) :=
  if fHelp || params.length > 1 then .threw "help"
  else
    let includeExpired :=
      match paramAt params 0 with
      | .bool b => b
      | _ => false
    .ret (GetDefinedChains ctx st [] includeExpired)

/-- Lines 463-498 of `getnotarizationdata`, from the declaration of `chainID` to the call of
`GetNotarizationData`: the chain id and the evaluation code the call is made with. The
class starts as accepted on the Verus chain and earned elsewhere, and the second argument
only ever changes it to earned. -/
def getnotarizationdataArgs (ctx : RpcContext) (st : NodeState) (params : List UniValue) :
    Outcome (uint160 × Nat) :=
  let ecode :=
    if ctx.IsVerusActive then st.EVAL_ACCEPTEDNOTARIZATION else st.EVAL_EARNEDNOTARIZATION
  let chainID : uint160 :=
    match paramAt params 0 with
    | .str s => (ctx.ParseChainID s).getD 0
    | _ => 0
  if chainID == 0 then .threw "Invalid chainid"
  else if params.length > 1 then
    match (paramAt params 1).get_bool with
    | .threw code => .threw code
    | .undefined => .undefined
    | .ret accepted =>
        .ret (chainID, if !accepted then st.EVAL_EARNEDNOTARIZATION else ecode)
  else .ret (chainID, ecode)

/-- `getnotarizationdata` (lines 440-508): the notarization data, or `none` for the empty
object returned when `GetNotarizationData` returns false. -/
def getnotarizationdata (ctx : RpcContext) (st : NodeState) ( fHelp : Bool)
    (params : List UniValue) : Outcome (Option CChainNotarizationData) :=
  if fHelp || params.length < 1 || params.length > 2 then .threw "help"
  else
    match getnotarizationdataArgs ctx st params with
    | .threw code => .threw code
    | .undefined => .undefined
    | .ret (chainID, ecode) =>
        match GetNotarizationData st.chain chainID ecode CChainNotarizationData.fresh with
        | .threw code => .threw code
        | .undefined => .undefined
        | .ret (true, nData) => .ret (some nData)
        | .ret (false, _) => .ret none

/-- The loop of lines 582-590 over the values of the array: every value must be a string,
a string that parses to the null hash throws `RPC_INVALID_PARAMETER`, and the other hashes
are inserted into the set `txids`. -/
def parseTxids (ctx : RpcContext) : List UniValue → List uint256 → Outcome (List uint256)
  | [], txids => .ret txids
  | value :: rest, txids =>
      match value.get_str with
      | .threw code => .threw code
      | .undefined => .undefined
      | .ret s =>
          if ctx.uint256S s == 0 then .threw ("Invalid parameter for notarization ID: " ++ s)
          else parseTxids ctx rest (if txids.contains (ctx.uint256S s) then txids
            else txids ++ [ctx.uint256S s])

/-- Lines 538-590 of `getcrossnotarization`: chain id, evaluation code and the set of
candidate txids. The checks come in the order of the source: chain id, third argument,
type of the second argument, the values of the array. -/
def getcrossnotarizationArgs (ctx : RpcContext) (st : NodeState) (params : List UniValue) :
    Outcome (uint160 × Nat × List uint256) :=
  let ecode :=
    if ctx.IsVerusActive then st.EVAL_ACCEPTEDNOTARIZATION else st.EVAL_EARNEDNOTARIZATION
  let chainID : uint160 :=
    match paramAt params 0 with
    | .str s => (ctx.ParseChainID s).getD 0
    | _ => 0
  if chainID == 0 then .threw "Invalid chainid"
  else
    let accepted : Outcome Bool :=
      if params.length > 2 then (paramAt params 2).get_bool else .ret true
    match accepted with
    | .threw code => .threw code
    | .undefined => .undefined
    | .ret accepted =>
        let ecode1 := if !accepted then st.EVAL_EARNEDNOTARIZATION else ecode
        match paramAt params 1 with
        | .arr values =>
            match parseTxids ctx values [] with
            | .threw code => .threw code
            | .undefined => .undefined
            | .ret txids => .ret (chainID, ecode1, txids)
        | other =>
            .threw ("Invalid second parameter object type: " ++ toString other.type)

/-- `getcrossnotarization` (lines 510-771). -/
def getcrossnotarization (ctx : RpcContext) (st : NodeState) ( fHelp : Bool)
    (params : List UniValue) : Outcome CrossResult :=
  if fHelp || params.length < 2 || params.length > 3 then .threw "help"
  else
    match getcrossnotarizationArgs ctx st params with
    | .threw code => .threw code
    | .undefined => .undefined
    | .ret (chainID, ecode, txids) => crossNotarizationFrom st chainID ecode txids

/-- Modelled from the spec: the capacity of the merge-mining table, "a small fixed bound (8
in this design)". -/
def MAX_MERGE_CHAINS : Nat := 8

/-- Modelled from the spec: `ConnectedChains.PruneOldChains`, not among the sources:
"entries older than a staleness threshold are pruned unconditionally". An entry is older
when its time is below the cutoff. -/
def PruneOldChains (ctx : RpcContext) (pruneBefore : Int)
    (chains : List CPBaaSMergeMinedChainData) : List CPBaaSMergeMinedChainData :=
  chains.filter (fun c => !decide (ctx.entryTime c < pruneBefore))

/-- Modelled from the spec: the position of "the current minimum-ROI occupant" among the
estimated ROIs of the table, the first one when several are least (0 for the empty
list). -/
def minIndex : List Nat → Nat
  | [] => 0
  | [_] => 0
  | a :: b :: rest =>
      if (b :: rest)[minIndex (b :: rest)]?.getD 0 < a then minIndex (b :: rest) + 1 else 0

/-- Modelled from the spec: `ConnectedChains.AddMergedBlock`, not among the sources:
"reject if at capacity and candidate's ROI is not greater than the current minimum-ROI
occupant; otherwise, if full, evict the minimum-ROI occupant and insert; else insert
directly." The result is (accepted, table). -/
def AddMergedBlock (ctx : RpcContext) (chains : List CPBaaSMergeMinedChainData)
    (blkData : CPBaaSMergeMinedChainData) : Bool × List CPBaaSMergeMinedChainData :=
  if chains.length < MAX_MERGE_CHAINS then (true, chains ++ [blkData])
  else
    let least := minIndex (chains.map ctx.estimatedROI)
    match chains[least]? with
    | none => (false, chains)
    | some occupant =>
        if ctx.estimatedROI occupant < ctx.estimatedROI blkData then
          (true, chains.eraseIdx least ++ [blkData])
        else (false, chains)

/-- Line 990 of `addmergedblock`: the admission and the value returned for it,
`NullUniValue` (`none`) or "blocksfull". -/
def admitBlock (ctx : RpcContext) (chains : List CPBaaSMergeMinedChainData)
    (blkData : CPBaaSMergeMinedChainData) :
    List CPBaaSMergeMinedChainData × Outcome (Option String) :=
  let added := AddMergedBlock ctx chains blkData
  (added.2, .ret (if added.1 then none else some "blocksfull"))

/-- Lines 966-990 of `addmergedblock`, after the arguments were read and checked: the table
is pruned, the chain is looked up in the table and then in the registry, the block is
decoded and the candidate is offered to the table. -/
def addmergedblockChecked (ctx : RpcContext) (st : NodeState)
    (chains : List CPBaaSMergeMinedChainData) (hexdata : UniValue) (name rpchost : String)
    (rpcport : Int) (rpcuserpass : String) :
    List CPBaaSMergeMinedChainData × Outcome (Option String) :=
  let pruned := PruneOldChains ctx (ctx.GetAdjustedTime - 60000) chains
  let chainID := ctx.GetChainID name
  let chainDef : CPBaaSChainDefinition :=
    match ctx.GetChainInfo pruned chainID with
    | some known => known
    | none => { valid := false, name := "", endBlock := 0 }
  let looked : Bool × CPBaaSChainDefinition :=
    if chainDef.valid then (true, chainDef) else GetChainDefinition ctx st name chainDef
  if !looked.1 then (pruned, .threw "chain not found")
  else
    match hexdata.get_str with
    | .threw code => (pruned, .threw code)
    | .undefined => (pruned, .undefined)
    | .ret hex =>
        match ctx.DecodeHexBlk hex with
        | none => (pruned, .ret (some "deserialize-invalid"))
        | some blk =>
            admitBlock ctx pruned
              { chainDefinition := looked.2, rpcHost := rpchost, rpcPort := rpcport
                rpcUserPass := rpcuserpass, block := blk }

/-- `addmergedblock` (lines 923-991) on the table `chains` of `ConnectedChains`: the table
after the call and how the call ends. -/
def addmergedblock (ctx : RpcContext) (st : NodeState)
    (chains : List CPBaaSMergeMinedChainData) ( fHelp : Bool) (params : List UniValue) :
    List CPBaaSMergeMinedChainData × Outcome (Option String) :=
  if fHelp || params.length != 5 then (chains, .threw "help")
  else
    match (paramAt params 1).get_str with
    | .threw code => (chains, .threw code)
    | .undefined => (chains, .undefined)
    | .ret name =>
        if name == "" then (chains, .threw "must provide chain name to merge mine")
        else
          match (paramAt params 2).get_str with
          | .threw code => (chains, .threw code)
          | .undefined => (chains, .undefined)
          | .ret rpchost =>
              match (paramAt params 3).get_int with
              | .threw code => (chains, .threw code)
              | .undefined => (chains, .undefined)
              | .ret rpcport =>
                  match (paramAt params 4).get_str with
                  | .threw code => (chains, .threw code)
                  | .undefined => (chains, .undefined)
                  | .ret rpcuserpass =>
                      if rpchost == "" || rpcport == 0 || rpcuserpass == "" then
                        (chains,
                          .threw "must provide valid RPC connection parameters to merge mine")
                      else
                        addmergedblockChecked ctx st chains (paramAt params 0) name rpchost
                          rpcport rpcuserpass

/-! ## Reading the result -/

/-- The power declared by the tip of a fork: `compactPower` of the entry of `vtx` at the last
index of the fork (`none` for an empty fork or an index outside `vtx`). -/
def tipPower? (vtx : List (uint256 × CPBaaSNotarization)) (fork : List Nat) : Option Nat :=
  match fork.getLast? with
  | none => none
  | some tip => (vtx[tip]?).map (fun nzp => nzp.2.compactPower)

/-- A fork read as the sequence of ids recorded in `vtx` for its indices. -/
def forkIds (vtx : List (uint256 × CPBaaSNotarization)) (fork : List Nat) : List (Option uint256) :=
  fork.map (fun i => (vtx[i]?).map Prod.fst)

/-- A transaction with hash `hash` carrying a valid notarization that names `prev` as its
predecessor and declares power `power`; `isDef` tells whether the transaction is also a
valid chain definition. -/
def notarizationTx (hash prev power : Nat) (isDef : Bool) : CTransaction :=
  { hash := hash
    chainDef := { valid := isDef, name := "TESTCHAIN", endBlock := 0 }
    notarization :=
      { valid := true, prevNotarization := prev, crossNotarization := 0, compactPower := power }
    vout := [] }

/-- The chain state in which the unspent finalization outputs are one output of each listed
transaction, in list order; each transaction comes with the hash and the height of its
block. -/
def stateOf (txs : List (CTransaction × uint256 × Int)) : ChainState :=
  { PBAAS_VERSION := 1
    EVAL_FINALIZENOTARIZATION := 4
    GetConditionID := fun chainID _ => chainID
    GetAddressUnspent := fun _ => some (txs.map (fun t => { txhash := t.1.hash, index := 0 }))
    myGetTransaction := fun h => (txs.find? (fun t => t.1.hash == h)).map (fun t => (t.1, t.2.1))
    mapBlockIndex := fun b => (txs.find? (fun t => t.2.1 == b)).map (fun t => t.2.2) }

/-- Three notarizations in a straight line below the chain definition, with powers 10, 20,
30: transactions 11, 12, 13 in the blocks 21, 22, 23 of heights 1, 2, 3; each names the
txid of the previous one. -/
def straightLine : List (CTransaction × uint256 × Int) :=
  [ (notarizationTx 11 0 10 true, 21, 1),
    (notarizationTx 12 11 20 false, 22, 2),
    (notarizationTx 13 12 30 false, 23, 3) ]

/-- Six notarizations; every block hash is chosen equal to the hash of its transaction, so
that the id recorded in `vtx` is the txid. 100 is the chain definition, 101 extends 100,
102 extends 101, 103 and 104 name parents that are not present, and 105 extends 101, which
by then is no longer a tip. -/
def forkedChain : List (CTransaction × uint256 × Int) :=
  [ (notarizationTx 100 0 10 true, 100, 1),
    (notarizationTx 101 100 20 false, 101, 2),
    (notarizationTx 102 101 30 false, 102, 3),
    (notarizationTx 103 901 5 false, 103, 4),
    (notarizationTx 104 902 5 false, 104, 5),
    (notarizationTx 105 101 40 false, 105, 6) ]

/-- The first five entries of `forkedChain` followed by two notarizations of equal height
7 that both extend 101, in the order 106, 107. -/
def siblingsFirst : List (CTransaction × uint256 × Int) :=
  forkedChain.take 5 ++
    [ (notarizationTx 106 101 40 false, 106, 7),
      (notarizationTx 107 101 50 false, 107, 7) ]

/-- The same outputs as `siblingsFirst` with the two notarizations of height 7 exchanged. -/
def siblingsSecond : List (CTransaction × uint256 × Int) :=
  forkedChain.take 5 ++
    [ (notarizationTx 107 101 50 false, 107, 7),
      (notarizationTx 106 101 40 false, 106, 7) ]

/-- Two notarizations with unknown parents in blocks of heights 1000 and 1001; the second
declares the greater power. -/
def twoRoots : List (CTransaction × uint256 × Int) :=
  [ (notarizationTx 11 0 10 true, 21, 1000),
    (notarizationTx 12 902 20 false, 22, 1001) ]

/-- Four notarizations with unknown parents; the second and the fourth declare the same,
greatest power. -/
def tiedRoots : List (CTransaction × uint256 × Int) :=
  [ (notarizationTx 11 0 10 true, 21, 1),
    (notarizationTx 12 902 30 false, 22, 2),
    (notarizationTx 13 903 20 false, 23, 3),
    (notarizationTx 14 904 30 false, 24, 4) ]

/-- The chain definition 100, the notarizations 103 and 104, which name parents that are not
present, and the notarizations 101 and 102, which both name 100 as their predecessor (block
hash equal to the transaction hash throughout). Three forks exist when 102 arrives, so the
vector `forks` has room for a fourth. -/
def twoChildren : List (CTransaction × uint256 × Int) :=
  [ (notarizationTx 100 0 10 true, 100, 1),
    (notarizationTx 103 901 5 false, 103, 2),
    (notarizationTx 104 902 5 false, 104, 3),
    (notarizationTx 101 100 20 false, 101, 4),
    (notarizationTx 102 100 30 false, 102, 5) ]

/-- The entry of `vtx` for a notarization recorded under `id`. -/
def entry (id prev power : Nat) : uint256 × CPBaaSNotarization :=
  (id, { valid := true, prevNotarization := prev, crossNotarization := 0, compactPower := power })

/-- The notarization data computed on `twoRoots`. -/
def twoRootsData : CChainNotarizationData :=
  { version := 1
    vtx := [entry 21 0 10, entry 22 902 20]
    lastConfirmed := -1
    forks := [[0], [1]]
    bestChain := 1 }

/-- The notarization data computed on `tiedRoots`. -/
def tiedRootsData : CChainNotarizationData :=
  { version := 1
    vtx := [entry 21 0 10, entry 22 902 30, entry 23 903 20, entry 24 904 30]
    lastConfirmed := -1
    forks := [[0], [1], [2], [3]]
    bestChain := 1 }

/-- A chain state like `stateOf (unspent ++ others)` in which only the transactions of
`unspent` have an unspent finalization output; those of `others` can be read as well. -/
def stateWith (unspent others : List (CTransaction × uint256 × Int)) : ChainState :=
  { stateOf (unspent ++ others) with
    GetAddressUnspent :=
      fun _ => some (unspent.map (fun t => { txhash := t.1.hash, index := 0 })) }

/-- The notarization of the confirmed root: no predecessor, cross notarization 80, power
10. -/
def rootNotarization : CPBaaSNotarization :=
  { valid := true, prevNotarization := 0, crossNotarization := 80, compactPower := 10 }

/-- An output that decodes to `rootNotarization` and pays the finalization address 7. -/
def finalizationOut : CTxOut :=
  { cc := some ({ vKeys := [7] }, rootNotarization), isOpReturn := false }

/-- An op-return output. -/
def opRetOut : CTxOut := { cc := none, isOpReturn := true }

/-- The transaction 11, a valid notarization that is not a chain definition, with one input
and the given outputs. -/
def confirmedRoot (vout : List CTxOut) : CTransaction :=
  { hash := 11
    chainDef := { valid := false, name := "", endBlock := 0 }
    notarization := rootNotarization
    vout := vout
    vin := [{ hash := 5, n := 0 }] }

/-- The transaction 12: a valid notarization that names 11 as its predecessor and 81 as its
cross notarization, with one finalization output and an op-return. -/
def extendingTx : CTransaction :=
  { hash := 12
    chainDef := { valid := false, name := "", endBlock := 0 }
    notarization :=
      { valid := true, prevNotarization := 11, crossNotarization := 81, compactPower := 20 }
    vout := [finalizationOut, opRetOut]
    vin := [{ hash := 11, n := 0 }] }

/-- The chain state in which transaction 12 (block 22, height 2) has the only unspent
finalization output and the transaction 11 it names (block 21, height 1) has the outputs
`rootOut`. -/
def rootedChain (rootOut : List CTxOut) : ChainState :=
  stateWith [(extendingTx, 22, 2)] [(confirmedRoot rootOut, 21, 1)]

/-- The chain state in which transaction 12 has the only unspent finalization output and the
transaction 11 it names cannot be read. -/
def unrootedChain : ChainState :=
  stateWith [(extendingTx, 22, 2)] []

/-- A peer that completed its handshake and is not inbound. -/
def outboundPeer : CNode :=
  { addr := "10.0.0.1:27485", hashPaymentAddress := 901
    fSuccessfullyConnected := true, fInbound := false }

/-- A node on the chain state `chain`: `GetTransaction` finds the listed transactions by
their hash (each with the hash of its block), every block can be read, the address index
holds `addressIndex` at every height, the tip is at height 9, and the peers are `vNodes`. -/
def nodeOf (chain : ChainState) (fetch : List (CTransaction × uint256))
    (addressIndex : List CAddressIndexKey) (vNodes : List CNode) : NodeState :=
  { chain := chain
    EVAL_ACCEPTEDNOTARIZATION := 2
    EVAL_EARNEDNOTARIZATION := 3
    GetTransaction := fun h => fetch.find? (fun t => t.1.hash == h)
    chainActiveHeight := 9
    GetRoot := fun _ => 7000
    GetBlockProof := fun h => { nIndex := h, branch := [7001] }
    GetBlockHeader := fun _ => { blockHash := 29 }
    GetBlockHash := fun _ => 29
    GetMerkleProof := fun _ branch _ => { branch with branch := branch.branch ++ [7002] }
    ReadBlockFromDisk := fun _ => true
    GetMerkleBranch := fun _ txindex => [6000 + txindex]
    GetAddressIndex := fun _ _ _ => some addressIndex
    GetHash := fun mtx => 3000 + mtx.vout.length
    GetCompactPower := fun _ => 10
    ObjTypeCode := fun _ => .CHAINOBJ_HEADER
    vNodes := vNodes
    GetRandInt := fun _ => 0 }

/-- The node on `rootedChain [finalizationOut, opRetOut]` that can fetch the transactions 11
and 12 by their txids. -/
def rootedNode (addressIndex : List CAddressIndexKey) (vNodes : List CNode) : NodeState :=
  nodeOf (rootedChain [finalizationOut, opRetOut])
    [(confirmedRoot [finalizationOut, opRetOut], 21), (extendingTx, 22)] addressIndex vNodes

/-- The chain definition 100 and the notarization 101 that extends it, each with an
op-return output and in a block whose hash equals the transaction hash. -/
def bootstrapPair : List (CTransaction × uint256 × Int) :=
  [ ({ notarizationTx 100 0 10 true with vout := [opRetOut] }, 100, 1),
    ({ notarizationTx 101 100 20 false with vout := [opRetOut] }, 101, 2) ]

/-- The chain state of `straightLine` with an unspent output of the unknown transaction 99
listed between those of 11 and 13. -/
def unreadableState : ChainState :=
  { stateOf straightLine with
    GetAddressUnspent := fun _ => some [⟨11, 0⟩, ⟨99, 0⟩, ⟨13, 0⟩] }

/-- A chain state whose only unspent finalization output belongs to transaction 31, which
can be read and carries no valid notarization. -/
def invalidOnly : ChainState :=
  stateOf
    [ ({ hash := 31
         chainDef := { valid := false, name := "", endBlock := 0 }
         notarization :=
           { valid := false, prevNotarization := 0, crossNotarization := 0, compactPower := 0 }
         vout := [opRetOut] }, 41, 1) ]

/-- The definitions of the readable transactions of the address index entries, in index
order. -/
def readableDefinitions (st : NodeState) : List CAddressIndexKey → List CPBaaSChainDefinition
  | [] => []
  | txidx :: rest =>
      match st.chain.myGetTransaction txidx.txhash with
      | some (tx, _) => tx.chainDef :: readableDefinitions st rest
      | none => readableDefinitions st rest

/-- The entries of the definition-address index, none when it cannot be read. -/
def definitionIndex (ctx : RpcContext) (st : NodeState) : List CAddressIndexKey :=
  (st.GetAddressIndex ctx.definitionKeyID 0 0).getD []

/-! ## Concrete RPC contexts, registries and tables -/

/-- The hex form of the chain id 7 used in the examples. -/
def chainSeven : String := "0700000000000000000000000000000000000000"

/-- An RPC context on the Verus chain (`isVerus`) or on another chain: the chain id string
`chainSeven` decodes to 7 and every other string to the null id, `uint256S` reads "51" as
81 and every other string as the null hash, the adjusted time is 100000, the chain
"TESTCHAIN" has the id 7 and every other name the id 8, every non-empty hex string decodes
to a block of time 100000, a chain is known to the table when a candidate carries its
name, and a candidate has the time of its block and the body of its block as estimated
ROI. -/
def contextOf (isVerus : Bool) : RpcContext :=
  { IsVerusActive := isVerus
    KOMODO_ASSETCHAIN_MAXLEN := 65
    definitionKeyID := 50
    ParseChainID := fun s => if s == chainSeven then some 7 else some 0
    uint256S := fun s => if s == "51" then 81 else 0
    GetAdjustedTime := 100000
    GetChainID := fun name => if name == "TESTCHAIN" then 7 else 8
    DecodeHexBlk := fun hex => if hex == "" then none else some { nTime := 100000, body := 1 }
    GetChainInfo := fun chains chainID =>
      (chains.find? (fun c => (if c.chainDefinition.name == "TESTCHAIN" then 7 else 8) == chainID)).map
        (fun c => c.chainDefinition)
    entryTime := fun c => c.block.nTime
    estimatedROI := fun c => c.block.body }

/-- A transaction that carries the chain definition (`valid`, `name`, `endBlock`) and no
valid notarization. -/
def definitionTx (hash : Nat) (valid : Bool) (name : String) (endBlock : Int) : CTransaction :=
  { hash := hash
    chainDef := { valid := valid, name := name, endBlock := endBlock }
    notarization :=
      { valid := false, prevNotarization := 0, crossNotarization := 0, compactPower := 0 }
    vout := [opRetOut] }

/-- A registry at height 9: the index lists the transactions 61 ("VRSC", no end), 62
("TESTCHAIN", ended at 5), 63 (unreadable), 64 ("TESTCHAIN", ending at 9) and 65 (an
invalid definition named "NOPE"). -/
def registryNode : NodeState :=
  nodeOf
    (stateWith []
      [ (definitionTx 61 true "VRSC" 0, 71, 1),
        (definitionTx 62 true "TESTCHAIN" 5, 72, 2),
        (definitionTx 64 true "TESTCHAIN" 9, 74, 4),
        (definitionTx 65 false "NOPE" 0, 75, 5) ])
    [] [⟨61, 0⟩, ⟨62, 0⟩, ⟨63, 0⟩, ⟨64, 0⟩, ⟨65, 0⟩] []

/-- A candidate for the chain "TESTCHAIN" with a block of the given time and body (the body
is its estimated ROI in `contextOf`). -/
def candidate (nTime : Int) (body : Nat) : CPBaaSMergeMinedChainData :=
  { chainDefinition := { valid := true, name := "TESTCHAIN", endBlock := 0 }
    rpcHost := "127.0.0.1", rpcPort := 27486, rpcUserPass := "user:pass"
    block := { nTime := nTime, body := body } }

/-- A table of two candidates, the first of which is older than the cutoff 40000. -/
def staleTable : List CPBaaSMergeMinedChainData := [candidate 100 5, candidate 100000 6]

/-- A full table: eight candidates of time 100000 with the estimated ROI 10 to 17. -/
def fullTable : List CPBaaSMergeMinedChainData :=
  [candidate 100000 12, candidate 100000 10, candidate 100000 11, candidate 100000 13,
    candidate 100000 14, candidate 100000 15, candidate 100000 16, candidate 100000 17]

/-- The arguments of an `addmergedblock` call for the chain "TESTCHAIN". -/
def mergeParams (rpcport : Int) : List UniValue :=
  [.str "00", .str "TESTCHAIN", .str "127.0.0.1", .num rpcport, .str "user:pass"]

/-- The transaction `hash`: a valid notarization that names `prev` as its predecessor, with
a finalization output and an op-return. -/
def followerTx (hash prev power : Nat) : CTransaction :=
  { hash := hash
    chainDef := { valid := false, name := "", endBlock := 0 }
    notarization :=
      { valid := true, prevNotarization := prev, crossNotarization := 82, compactPower := power }
    vout := [finalizationOut, opRetOut]
    vin := [{ hash := prev, n := 0 }] }

/-- The transaction 15: a valid notarization that names 11 as its predecessor, like
transaction 12. -/
def rivalTx : CTransaction := followerTx 15 11 50

/-- The chain state in which the transactions 12, 13, 14 and 15 (blocks 22 to 25, heights 2
to 5) each have an unspent finalization output: 12 extends the confirmed notarization of
transaction 11 (block 21, height 1), 13 extends 12, 14 extends 13, and 15 extends 11 as
well. No block hash equals a transaction hash. -/
def competingChain : ChainState :=
  stateWith
    [(extendingTx, 22, 2), (followerTx 13 12 30, 23, 3), (followerTx 14 13 40, 24, 4),
      (rivalTx, 25, 5)]
    [(confirmedRoot [finalizationOut, opRetOut], 21, 1)]

/-- A connected peer that is inbound. -/
def inboundPeer : CNode :=
  { addr := "10.0.0.2:27485", hashPaymentAddress := 902
    fSuccessfullyConnected := true, fInbound := true }

/-! ## The best-fork selection -/

theorem bestLoop_spec (vtx : List (uint256 × CPBaaSNotarization)) :
    ∀ (forks : List (List Nat)) (i : Nat) (best res : CChainPower),
      bestLoop vtx forks i best = some res →
      best.power ≤ res.power ∧
      (∀ fork ∈ forks, ∃ p, tipPower? vtx fork = some p ∧ p ≤ res.power) ∧
      (res = best ∨ ∃ k fork, forks[k]? = some fork ∧ res.nHeight = ((i + k : Nat) : Int) ∧
          tipPower? vtx fork = some res.power ∧ best.power < res.power ∧
          ∀ k' fork' p, k' < k → forks[k']? = some fork' →
            tipPower? vtx fork' = some p → p < res.power) := by
  intro forks
  induction forks with
  | nil =>
      intro i best res h
      simp only [bestLoop, Option.some.injEq] at h
      subst h
      exact ⟨le_rfl, by simp, Or.inl rfl⟩
  | cons fork rest ih =>
      intro i best res h
      unfold bestLoop at h
      cases hlast : fork.getLast? with
      | none => simp [hlast] at h
      | some tip =>
          cases hv : vtx[tip]? with
          | none => simp [hlast, hv] at h
          | some nzp =>
              simp only [hlast, hv] at h
              have htip : tipPower? vtx fork = some nzp.2.compactPower := by
                simp [tipPower?, hlast, hv]
              obtain ⟨hle, hall, hsel⟩ := ih _ _ _ h
              by_cases hgt : (ExpandCompactPower nzp.2.compactPower (i : Int)).gt best = true
              · rw [if_pos hgt] at hle hsel
                have hlt : best.power < nzp.2.compactPower := by
                  simpa [CChainPower.gt, ExpandCompactPower] using hgt
                have hle' : nzp.2.compactPower ≤ res.power := by
                  simpa [ExpandCompactPower] using hle
                refine ⟨le_trans (le_of_lt hlt) hle', ?_, Or.inr ?_⟩
                · intro f hf
                  rcases List.mem_cons.1 hf with rfl | hf
                  · exact ⟨_, htip, hle'⟩
                  · exact hall f hf
                · rcases hsel with hres | ⟨k, f, hk, hh, hp, hlt2, hlow⟩
                  · refine ⟨0, fork, by simp, ?_, ?_, ?_, ?_⟩
                    · simp [hres, ExpandCompactPower]
                    · simp [hres, ExpandCompactPower, htip]
                    · simpa [hres, ExpandCompactPower] using hlt
                    · intro k' f' p hk'
                      exact absurd hk' (Nat.not_lt_zero _)
                  · refine ⟨k + 1, f, by simpa using hk, ?_, hp, ?_, ?_⟩
                    · rw [hh]; congr 1; omega
                    · exact lt_trans hlt (by simpa [ExpandCompactPower] using hlt2)
                    · intro k' f' p hk' hf' hp'
                      cases k' with
                      | zero =>
                          simp at hf'
                          subst hf'
                          rw [htip] at hp'
                          cases hp'
                          simpa [ExpandCompactPower] using hlt2
                      | succ j =>
                          exact hlow j f' p (by omega) (by simpa using hf') hp'
              · rw [if_neg hgt] at hle hsel h
                have hnlt : nzp.2.compactPower ≤ best.power := by
                  have hn : ¬ best.power < nzp.2.compactPower := by
                    simpa [CChainPower.gt, ExpandCompactPower] using hgt
                  exact not_lt.mp hn
                refine ⟨hle, ?_, ?_⟩
                · intro f hf
                  rcases List.mem_cons.1 hf with rfl | hf
                  · exact ⟨_, htip, le_trans hnlt hle⟩
                  · exact hall f hf
                · rcases hsel with hres | ⟨k, f, hk, hh, hp, hlt2, hlow⟩
                  · exact Or.inl hres
                  · refine Or.inr ⟨k + 1, f, by simpa using hk, ?_, hp, hlt2, ?_⟩
                    · rw [hh]; congr 1; omega
                    · intro k' f' p hk' hf' hp'
                      cases k' with
                      | zero =>
                          simp at hf'
                          subst hf'
                          rw [htip] at hp'
                          cases hp'
                          exact lt_of_le_of_lt hnlt hlt2
                      | succ j =>
                          exact hlow j f' p (by omega) (by simpa using hf') hp'

/-! ## The forks never become fewer -/

theorem forkStep_length (st st1 : ForkState) (i : Nat) (nzp : uint256 × CPBaaSNotarization)
    (h : forkStep st i nzp = some st1) :
    0 < st1.forks.length ∧ st.forks.length ≤ st1.forks.length := by
  unfold forkStep at h
  cases hfind : referencesFind st.references nzp.2.prevNotarization with
  | none =>
      simp only [hfind, Option.some.injEq] at h
      subst h
      simp
  | some cp =>
      obtain ⟨chain, pos⟩ := cp
      simp only [hfind] at h
      cases hfork : st.forks[chain]? with
      | none => simp [hfork] at h
      | some fork =>
          simp only [hfork] at h
          have hlen : chain < st.forks.length := by
            rcases List.getElem?_eq_some_iff.1 hfork with ⟨hc, _⟩
            exact hc
          split_ifs at h with h1 h2
          · simp only [Option.some.injEq] at h
            subst h
            simp only [List.length_set]
            exact ⟨by omega, le_rfl⟩
          · simp only [Option.some.injEq] at h
            subst h
            simp

theorem forkLoop_length :
    ∀ (l : List (uint256 × CPBaaSNotarization)) (i : Nat) (st st1 : ForkState),
      forkLoop l i st = some st1 →
      st.forks.length ≤ st1.forks.length ∧ (l ≠ [] → 0 < st1.forks.length) := by
  intro l
  induction l with
  | nil =>
      intro i st st1 h
      simp only [forkLoop, Option.some.injEq] at h
      subst h
      simp
  | cons nzp rest ih =>
      intro i st st1 h
      unfold forkLoop at h
      cases hstep : forkStep st i nzp with
      | none => simp [hstep] at h
      | some st2 =>
          simp only [hstep] at h
          obtain ⟨hpos, hle⟩ := forkStep_length st st2 i nzp hstep
          obtain ⟨hle2, _⟩ := ih _ _ _ h
          exact ⟨le_trans hle hle2, fun _ => lt_of_lt_of_le hpos hle2⟩

/-! ## The two branches for a parent that is found -/

/-- A notarization whose predecessor is recorded at the end of a fork is pushed onto that
fork; the number of forks stays the same. -/
theorem forkStep_at_tip (st : ForkState) (i chain pos : Nat) (fork : List Nat)
    (nzp : uint256 × CPBaaSNotarization)
    (hfind : referencesFind st.references nzp.2.prevNotarization = some (chain, pos))
    (hfork : st.forks[chain]? = some fork) (htip : pos + 1 = fork.length) :
    forkStep st i nzp = some
      { forks := st.forks.set chain (fork ++ [i])
        references := st.references ++ [(nzp.1, (chain, fork.length))]
        capacity := st.capacity } := by
  simp [forkStep, hfind, hfork, htip]

/-- A notarization whose predecessor is recorded at position `pos` of a fork, not at its
end, while `forks` has room for another fork, adds the fork `fork.take pos` (the entries
before the predecessor) and turns the predecessor's fork into `fork.take pos ++ [i]`. -/
theorem forkStep_not_at_tip (st : ForkState) (i chain pos : Nat) (fork : List Nat)
    (nzp : uint256 × CPBaaSNotarization)
    (hfind : referencesFind st.references nzp.2.prevNotarization = some (chain, pos))
    (hfork : st.forks[chain]? = some fork) (htip : pos + 1 ≠ fork.length)
    (hpos : pos < fork.length) (hroom : st.forks.length < st.capacity) :
    forkStep st i nzp = some
      { forks := (st.forks ++ [fork.take pos]).set chain (fork.take pos ++ [i])
        references := st.references ++ [(nzp.1, (st.forks.length, pos))]
        capacity := st.capacity } := by
  simp [forkStep, hfind, hfork, htip, hpos, hroom, Nat.min_eq_left (Nat.le_of_lt hpos)]

/-! ## What a successful call went through -/

theorem rootLoop_vtx (keyID : uint160) (prevId : uint256) :
    ∀ (vout : List CTxOut) (acc : List (uint256 × CPBaaSNotarization) × Int),
      ∃ root, (rootLoop keyID prevId vout acc).1 = acc.1 ++ root ∧ ∀ e ∈ root, e.1 = prevId := by
  intro vout
  induction vout with
  | nil => intro acc; exact ⟨[], by simp [rootLoop], by simp⟩
  | cons o rest ih =>
      intro acc
      unfold rootLoop
      cases hcc : o.cc with
      | none => simpa using ih acc
      | some pn =>
          obtain ⟨p, notarization⟩ := pn
          simp only
          split_ifs with hc
          · obtain ⟨root, hroot, hid⟩ := ih (acc.1 ++ [(prevId, notarization)],
              ((acc.1 ++ [(prevId, notarization)]).length : Int) - 1)
            refine ⟨(prevId, notarization) :: root, ?_, ?_⟩
            · rw [hroot]; simp
            · intro e he
              rcases List.mem_cons.1 he with rfl | he
              · rfl
              · exact hid e he
          · exact ih acc

/-- A call that returns true read the unspent outputs, scanned them without a throw into a
non-empty `sorted`, appended root entries (all recorded under the `prevNotarization` of the
earliest notarization) and the sorted entries to `vtx`, and ran the fork loop and the
best-fork loop to their ends. -/
theorem GetNotarizationData_true (env : ChainState) (chainID : uint160) (ecode : Nat)
    (nd r : CChainNotarizationData)
    (h : GetNotarizationData env chainID ecode nd = .ret (true, r)) :
    ∃ outs scan first tail root forks0 fs best,
      env.GetAddressUnspent (env.GetConditionID chainID env.EVAL_FINALIZENOTARIZATION)
        = some outs ∧
      scanOutputs env outs ScanState.init = .ret scan ∧
      scan.sorted = first :: tail ∧
      (∀ e ∈ root, e.1 = first.2.2.prevNotarization) ∧
      r.vtx = nd.vtx ++ root ++ scan.sorted.map Prod.snd ∧
      forkLoop r.vtx 0 { forks := forks0, references := [] } = some fs ∧
      r.forks = fs.forks ∧
      bestLoop r.vtx r.forks 0 CChainPower.default = some best ∧
      r.bestChain = best.nHeight := by
  unfold GetNotarizationData at h
  simp only at h
  cases hout : env.GetAddressUnspent (env.GetConditionID chainID env.EVAL_FINALIZENOTARIZATION) with
  | none => simp [hout] at h
  | some outs =>
      simp only [hout] at h
      cases hscan : scanOutputs env outs ScanState.init with
      | threw c => simp [hscan] at h
      | undefined => simp [hscan] at h
      | ret scan =>
          simp only [hscan] at h
          cases hsorted : scan.sorted with
          | nil => simp [hsorted] at h
          | cons first tail =>
              simp only [hsorted] at h
              unfold buildNotarizationData at h
              simp only at h
              by_cases hdef : scan.chainDef.valid = true
              · simp only [hdef, Bool.not_true, Bool.false_eq_true, if_false] at h
                cases hfork : forkLoop (nd.vtx ++ scan.sorted.map Prod.snd) 0
                    { forks := nd.forks, references := [] } with
                | none => simp [hfork] at h
                | some fs =>
                    simp only [hfork] at h
                    cases hbest : bestLoop (nd.vtx ++ scan.sorted.map Prod.snd) fs.forks 0
                        CChainPower.default with
                    | none => simp [hbest] at h
                    | some best =>
                        simp only [hbest, Outcome.ret.injEq, Prod.mk.injEq, true_and] at h
                        subst h
                        exact ⟨outs, scan, first, tail, [], nd.forks, fs, best, rfl, hscan,
                          hsorted, by simp, by simp, hfork, rfl, hbest, rfl⟩
              · simp only [hdef, Bool.not_false, if_true] at h
                cases hroot : env.myGetTransaction first.2.2.prevNotarization with
                | none => simp [hroot] at h
                | some rt =>
                    obtain ⟨rootTx, rootBlk⟩ := rt
                    simp only [hroot] at h
                    obtain ⟨root, hrv, hid⟩ := rootLoop_vtx
                      (env.GetConditionID chainID env.EVAL_FINALIZENOTARIZATION)
                      first.2.2.prevNotarization rootTx.vout (nd.vtx, 0)
                    simp only at hrv
                    rw [hrv] at h
                    cases hfork : forkLoop (nd.vtx ++ root ++ scan.sorted.map Prod.snd) 0
                        { forks := nd.forks, references := [] } with
                    | none => rw [hfork] at h; simp at h
                    | some fs =>
                        rw [hfork] at h
                        simp only at h
                        cases hbest : bestLoop (nd.vtx ++ root ++ scan.sorted.map Prod.snd)
                            fs.forks 0 CChainPower.default with
                        | none => rw [hbest] at h; simp at h
                        | some best =>
                            rw [hbest] at h
                            simp only [Outcome.ret.injEq, Prod.mk.injEq, true_and] at h
                            subst h
                            exact ⟨outs, scan, first, tail, root, nd.forks, fs, best, rfl, hscan,
                              hsorted, hid, rfl, hfork, rfl, hbest, rfl⟩

/-- On success `bestChain` is the least index among the forks whose tip declares the
greatest power. -/
theorem best_fork_least_maximal (env : ChainState) (chainID : uint160) (ecode : Nat)
    (nd r : CChainNotarizationData)
    (h : GetNotarizationData env chainID ecode nd = .ret (true, r)) :
    ∃ (b : Nat) (fork : List Nat) (pb : Nat),
      r.bestChain = (b : Int) ∧ r.forks[b]? = some fork ∧ tipPower? r.vtx fork = some pb ∧
      (∀ f ∈ r.forks, ∃ p, tipPower? r.vtx f = some p ∧ p ≤ pb) ∧
      (∀ k f p, k < b → r.forks[k]? = some f → tipPower? r.vtx f = some p → p < pb) := by
  obtain ⟨outs, scan, first, tail, root, forks0, fs, best, -, -, hsorted, -, hvtx, hfork, hforks,
    hbest, hbc⟩ := GetNotarizationData_true env chainID ecode nd r h
  have hne : r.vtx ≠ [] := by
    rw [hvtx, hsorted]; simp
  have hpos : 0 < r.forks.length := by
    rw [hforks]
    exact (forkLoop_length _ _ _ _ hfork).2 hne
  obtain ⟨-, hall, hsel⟩ := bestLoop_spec r.vtx r.forks 0 CChainPower.default best hbest
  rcases hsel with hres | ⟨k, f, hk, hh, hp, -, hlow⟩
  · obtain ⟨f0, hf0⟩ : ∃ f0, r.forks[0]? = some f0 :=
      ⟨r.forks[0], List.getElem?_eq_getElem hpos⟩
    have hmem : f0 ∈ r.forks := List.getElem?_mem hf0
    obtain ⟨p0, hp0, hle0⟩ := hall f0 hmem
    have hz : best.power = 0 := by rw [hres]; rfl
    have hp00 : p0 = 0 := by omega
    refine ⟨0, f0, 0, ?_, hf0, by rw [hp0, hp00], ?_, ?_⟩
    · rw [hbc, hres]; rfl
    · intro f' hf'
      obtain ⟨p, hp, hle⟩ := hall f' hf'
      exact ⟨p, hp, by omega⟩
    · intro k' f' p hk'
      exact absurd hk' (Nat.not_lt_zero _)
  · refine ⟨k, f, best.power, ?_, hk, hp, hall, hlow⟩
    rw [hbc, hh]; simp

/-! ## The scan of the unspent outputs -/

/-- C2: on the straight line of transactions 11, 12, 13 (blocks 21, 22, 23) the call
succeeds and the ids recorded in `vtx` are 21, 22, 23, the hashes of the blocks, while the
unspent outputs belong to the transactions 11, 12, 13. -/
theorem vtx_records_block_hash :
    ∃ r, GetNotarizationData (stateOf straightLine) 7 0 CChainNotarizationData.fresh
        = .ret (true, r) ∧
      r.vtx.map Prod.fst = [21, 22, 23] ∧
      (stateOf straightLine).GetAddressUnspent 7
        = some [⟨11, 0⟩, ⟨12, 0⟩, ⟨13, 0⟩] :=
  ⟨_, rfl, rfl, rfl⟩

/-- C3: on the straight line of three notarizations with powers 10, 20, 30, each naming
the txid of the previous one, the call succeeds with three forks of one entry each, not
with the single fork `[0, 1, 2]`. -/
theorem straight_line_three_forks :
    ∃ r, GetNotarizationData (stateOf straightLine) 7 0 CChainNotarizationData.fresh
        = .ret (true, r) ∧
      r.vtx.map (fun e => e.2.prevNotarization) = [0, 11, 12] ∧
      r.forks = [[0], [1], [2]] :=
  ⟨_, rfl, rfl, rfl⟩

/-- C1: on `forkedChain` the call succeeds with first fork `[0, 5]`; entry 5 names 101 as
its predecessor, while the id recorded for entry 0, which precedes it in the fork, is
100. -/
theorem fork_link_broken :
    ∃ r, GetNotarizationData (stateOf forkedChain) 7 0 CChainNotarizationData.fresh
        = .ret (true, r) ∧
      r.forks = [[0, 5], [3], [4], [0]] ∧
      (r.vtx[5]?).map (fun e => e.2.prevNotarization) = some 101 ∧
      (r.vtx[0]?).map Prod.fst = some 100 :=
  ⟨_, rfl, rfl, rfl, rfl⟩

/-- C4: (a) on `forkedChain`, in the state reached before entry 5, the parent 101 of entry
5 is recorded at position 1 of fork 0 = `[0, 1, 2]`; the step appends the new fork `[0]`,
not `[0, 1, 5]`, and these are the forks the call returns. (b) On `twoChildren`, where the
entries 3 and 4 both name entry 0 as parent and three forks exist when entry 4 arrives, the
loop ends with the forks `[4]`, `[1]`, `[2]` and `[]`, none of them `[0, 3]` or `[0, 4]`,
and the call ends in undefined behaviour. -/
theorem branch_copies_short_prefix :
    (∃ st st1 r,
        forkLoop ((forkedChain.take 5).map (fun t => (t.2.1, t.1.notarization))) 0
          { forks := [], references := [] } = some st ∧
        referencesFind st.references 101 = some (0, 1) ∧
        st.forks[0]? = some [0, 1, 2] ∧
        forkStep st 5 (entry 105 101 40) = some st1 ∧
        st1.forks.length = st.forks.length + 1 ∧
        st1.forks.getLast? = some [0] ∧
        GetNotarizationData (stateOf forkedChain) 7 0 CChainNotarizationData.fresh
          = .ret (true, r) ∧
        r.forks = st1.forks) ∧
    (∃ st st1,
        forkLoop ((twoChildren.take 4).map (fun t => (t.2.1, t.1.notarization))) 0
          { forks := [], references := [] } = some st ∧
        st.forks = [[0, 3], [1], [2]] ∧
        st.capacity = 4 ∧
        referencesFind st.references 100 = some (0, 0) ∧
        forkStep st 4 (entry 102 100 30) = some st1 ∧
        st1.forks = [[4], [1], [2], []] ∧
        forkLoop (twoChildren.map (fun t => (t.2.1, t.1.notarization))) 0
          { forks := [], references := [] } = some st1 ∧
        GetNotarizationData (stateOf twoChildren) 7 0 CChainNotarizationData.fresh
          = .undefined) :=
  ⟨⟨_, _, _, rfl, rfl, rfl, rfl, rfl, rfl, rfl, rfl⟩,
    ⟨_, _, rfl, rfl, rfl, rfl, rfl, rfl, rfl, rfl⟩⟩

/-- C5: on `forkedChain`, in the state reached before entry 5, the forks are `[0, 1, 2]`,
`[3]`, `[4]`; the parent 101 of entry 5 is at position 1 of fork 0, not at its end; after
the step fork 0 is `[0, 5]`, and these are the forks the call returns. -/
theorem branch_overwrites_parent_fork :
    ∃ st st1 r,
      forkLoop ((forkedChain.take 5).map (fun t => (t.2.1, t.1.notarization))) 0
        { forks := [], references := [] } = some st ∧
      st.forks = [[0, 1, 2], [3], [4]] ∧
      referencesFind st.references 101 = some (0, 1) ∧
      forkStep st 5 (entry 105 101 40) = some st1 ∧
      st1.forks = [[0, 5], [3], [4], [0]] ∧
      GetNotarizationData (stateOf forkedChain) 7 0 CChainNotarizationData.fresh
        = .ret (true, r) ∧
      r.forks = st1.forks :=
  ⟨_, _, _, rfl, rfl, rfl, rfl, rfl, rfl, rfl⟩

/-- C6: on `forkedChain` the call succeeds with six entries in `vtx`, and the indices 1 and
2 occur in none of the forks. -/
theorem index_dropped_from_forks :
    ∃ r, GetNotarizationData (stateOf forkedChain) 7 0 CChainNotarizationData.fresh
        = .ret (true, r) ∧
      r.vtx.length = 6 ∧
      (∀ fork ∈ r.forks, 1 ∉ fork ∧ 2 ∉ fork) :=
  ⟨_, rfl, rfl, by decide⟩

/-- C9: `siblingsFirst` and `siblingsSecond` hold the same outputs and differ by the order of
the two notarizations of height 7, both children of 101, which precedes them in both. The
call succeeds on both; read as id sequences the first result has the fork 100, 106, 107
and the second has not (it has 100, 107, 106 instead). -/
theorem sibling_order_changes_forks :
    ∃ r1 r2,
      GetNotarizationData (stateOf siblingsFirst) 7 0 CChainNotarizationData.fresh
        = .ret (true, r1) ∧
      GetNotarizationData (stateOf siblingsSecond) 7 0 CChainNotarizationData.fresh
        = .ret (true, r2) ∧
      siblingsFirst.Perm siblingsSecond ∧
      [some 100, some 106, some 107] ∈ r1.forks.map (forkIds r1.vtx) ∧
      [some 100, some 106, some 107] ∉ r2.forks.map (forkIds r2.vtx) :=
  ⟨_, _, rfl, rfl, (List.Perm.swap _ _ []).append_left _, by decide, by decide⟩

/-! ## Settled properties of the best-fork selection and of the sort -/

/-- C7, as stated, fails: on `twoRoots` the two notarizations are in blocks of heights 1000
and 1001, the call succeeds with the forks `[0]` and `[1]`, and `bestChain` is 1, the index
of the fork with the greater power, which is the height of no notarization. -/
theorem bestChain_is_not_a_height :
    ∃ r outs scan,
      GetNotarizationData (stateOf twoRoots) 7 0 CChainNotarizationData.fresh
        = .ret (true, r) ∧
      (stateOf twoRoots).GetAddressUnspent 7 = some outs ∧
      scanOutputs (stateOf twoRoots) outs ScanState.init = .ret scan ∧
      scan.sorted.map Prod.fst = [1000, 1001] ∧
      r.forks = [[0], [1]] ∧
      r.bestChain = 1 ∧
      ∀ height ∈ scan.sorted.map Prod.fst, r.bestChain ≠ height :=
  ⟨_, _, _, rfl, rfl, rfl, rfl, rfl, rfl, by decide⟩

/-- C7, amended: for every successful result of `GetNotarizationData`, `bestChain` is the
index in `forks` of a fork whose tip declares a power that is maximal among the tips of all
forks. -/
theorem bestChain_indexes_maximal_fork (env : ChainState) (chainID : uint160) (ecode : Nat)
    (nd r : CChainNotarizationData)
    (h : GetNotarizationData env chainID ecode nd = .ret (true, r)) :
    ∃ (b : Nat) (fork : List Nat) (pb : Nat),
      r.bestChain = (b : Int) ∧ r.forks[b]? = some fork ∧ tipPower? r.vtx fork = some pb ∧
      ∀ f ∈ r.forks, ∃ p, tipPower? r.vtx f = some p ∧ p ≤ pb := by
  obtain ⟨b, fork, pb, hb, hf, hp, hmax, -⟩ := best_fork_least_maximal env chainID ecode nd r h
  exact ⟨b, fork, pb, hb, hf, hp, hmax⟩

/-- C7, amended, on `twoRoots`: the call succeeds with `twoRootsData`, whose `bestChain`
indexes a fork of maximal tip power. -/
theorem bestChain_indexes_maximal_fork_witness :
    GetNotarizationData (stateOf twoRoots) 7 0 CChainNotarizationData.fresh
      = .ret (true, twoRootsData) ∧
    ∃ (b : Nat) (fork : List Nat) (pb : Nat),
      twoRootsData.bestChain = (b : Int) ∧ twoRootsData.forks[b]? = some fork ∧
      tipPower? twoRootsData.vtx fork = some pb ∧
      ∀ f ∈ twoRootsData.forks, ∃ p, tipPower? twoRootsData.vtx f = some p ∧ p ≤ pb :=
  ⟨rfl, bestChain_indexes_maximal_fork (stateOf twoRoots) 7 0 CChainNotarizationData.fresh
    twoRootsData rfl⟩

/-- C8: for every successful result of `GetNotarizationData`, the fork selected as best (the
one `bestChain` indexes) has a tip of maximal power, and every fork whose tip declares the
same power has an index that is not lower: among forks tied at the maximal power the lowest
index is selected. -/
theorem tie_selects_lowest_fork_index (env : ChainState) (chainID : uint160) (ecode : Nat)
    (nd r : CChainNotarizationData)
    (h : GetNotarizationData env chainID ecode nd = .ret (true, r)) :
    ∃ (b : Nat) (fork : List Nat) (pb : Nat),
      r.bestChain = (b : Int) ∧ r.forks[b]? = some fork ∧ tipPower? r.vtx fork = some pb ∧
      (∀ f ∈ r.forks, ∃ p, tipPower? r.vtx f = some p ∧ p ≤ pb) ∧
      ∀ k f, r.forks[k]? = some f → tipPower? r.vtx f = some pb → b ≤ k := by
  obtain ⟨b, fork, pb, hb, hf, hp, hmax, hlow⟩ :=
    best_fork_least_maximal env chainID ecode nd r h
  refine ⟨b, fork, pb, hb, hf, hp, hmax, ?_⟩
  intro k f hk hpk
  by_contra hlt
  exact lt_irrefl pb (hlow k f pb (not_le.mp hlt) hk hpk)

/-- C8 on `tiedRoots`, where the forks 1 and 3 tie at the greatest power 30: the call
succeeds with `tiedRootsData`, and the selected fork is the first of the tied ones. -/
theorem tie_selects_lowest_fork_index_witness :
    GetNotarizationData (stateOf tiedRoots) 7 0 CChainNotarizationData.fresh
      = .ret (true, tiedRootsData) ∧
    ∃ (b : Nat) (fork : List Nat) (pb : Nat),
      tiedRootsData.bestChain = (b : Int) ∧ tiedRootsData.forks[b]? = some fork ∧
      tipPower? tiedRootsData.vtx fork = some pb ∧
      (∀ f ∈ tiedRootsData.forks, ∃ p, tipPower? tiedRootsData.vtx f = some p ∧ p ≤ pb) ∧
      ∀ k f, tiedRootsData.forks[k]? = some f → tipPower? tiedRootsData.vtx f = some pb → b ≤ k :=
  ⟨rfl, tie_selects_lowest_fork_index (stateOf tiedRoots) 7 0 CChainNotarizationData.fresh
    tiedRootsData rfl⟩

theorem scanOutputs_unreadable (env : ChainState) :
    ∀ (outs : List CAddressUnspentKey) (st : ScanState),
      (∃ o ∈ outs, env.myGetTransaction o.txhash = none) →
      scanOutputs env outs st = .threw "cannot retrieve transaction" := by
  intro outs
  induction outs with
  | nil => intro st h; simp at h
  | cons o rest ih =>
      intro st h
      unfold scanOutputs
      cases htx : env.myGetTransaction o.txhash with
      | none => rfl
      | some tb =>
          obtain ⟨ntx, blkHash⟩ := tb
          simp only
          apply ih
          obtain ⟨o1, hmem, hnone⟩ := h
          rcases List.mem_cons.1 hmem with rfl | hmem
          · rw [htx] at hnone; cases hnone
          · exact ⟨o1, hmem, hnone⟩

theorem scanOutputs_nothing_kept (env : ChainState) :
    ∀ (outs : List CAddressUnspentKey) (st : ScanState),
      (∀ o ∈ outs, ∃ ntx blkHash, env.myGetTransaction o.txhash = some (ntx, blkHash) ∧
        (ntx.notarization.valid = false ∨ env.mapBlockIndex blkHash = none)) →
      ∃ st1, scanOutputs env outs st = .ret st1 ∧ st1.sorted = st.sorted := by
  intro outs
  induction outs with
  | nil => intro st _; exact ⟨st, rfl, rfl⟩
  | cons o rest ih =>
      intro st h
      obtain ⟨ntx, blkHash, htx, hskip⟩ := h o (List.mem_cons_self _ _)
      unfold scanOutputs
      simp only [htx]
      obtain ⟨st1, hst1, hsorted⟩ := ih (scanTx env st ntx blkHash)
        (fun o1 ho1 => h o1 (List.mem_cons_of_mem _ ho1))
      refine ⟨st1, hst1, ?_⟩
      rw [hsorted]
      unfold scanTx
      rcases hskip with hinv | hblk
      · simp [hinv]
      · by_cases hv : ntx.notarization.valid = true
        · simp [hv, hblk]
        · simp [hv]

theorem peerLoop_undefined :
    ∀ (vNodes : List CNode) (nodes : List CNodeData), peerLoop vNodes nodes = .undefined := by
  intro vNodes
  induction vNodes with
  | nil => intro nodes; rfl
  | cons node rest ih => intro nodes; unfold peerLoop; exact ih _

theorem findTxIndex_spec (txHash : uint256) :
    ∀ (l : List CAddressIndexKey),
      ((∀ e ∈ l, e.txhash ≠ txHash) → findTxIndex txHash l = l.length) ∧
      ((∃ e ∈ l, e.txhash = txHash) →
        ∃ key, l[findTxIndex txHash l]? = some key ∧ key.txhash = txHash ∧
          ∀ j key1, j < findTxIndex txHash l → l[j]? = some key1 → key1.txhash ≠ txHash) := by
  intro l
  induction l with
  | nil => simp [findTxIndex]
  | cons e rest ih =>
      obtain ⟨ih1, ih2⟩ := ih
      constructor
      · intro h
        have he : e.txhash ≠ txHash := h e (List.mem_cons_self _ _)
        have hr := ih1 (fun e1 he1 => h e1 (List.mem_cons_of_mem _ he1))
        simp [findTxIndex, he, hr]
      · intro h
        by_cases he : e.txhash = txHash
        · refine ⟨e, ?_, he, ?_⟩
          · simp [findTxIndex, he]
          · intro j key1 hj
            simp [findTxIndex, he] at hj
        · obtain ⟨e1, hmem, heq⟩ := h
          have hmem1 : e1 ∈ rest := by
            rcases List.mem_cons.1 hmem with rfl | hm
            · exact absurd heq he
            · exact hm
          obtain ⟨key, hkey, hk, hlow⟩ := ih2 ⟨e1, hmem1, heq⟩
          have hidx : findTxIndex txHash (e :: rest) = findTxIndex txHash rest + 1 := by
            simp [findTxIndex, he]
          refine ⟨key, ?_, hk, ?_⟩
          · rw [hidx]; simpa using hkey
          · intro j key1 hj hj1
            rw [hidx] at hj
            cases j with
            | zero =>
                simp at hj1
                subst hj1
                exact he
            | succ j1 =>
                exact hlow j1 key1 (by omega) (by simpa using hj1)

/-! ## Settled properties of the scan, the root and `getcrossnotarization` -/

/-- C11: on `rootedChain [opRetOut]` no transaction is a chain definition and the
transaction 11 named by the earliest notarization has no notarization output paying the
finalization address; the call succeeds with `lastConfirmed = 0` although `vtx[0]` is the
unspent notarization recorded under 22, no root entry. On a root with two such outputs it
succeeds with two root entries and `lastConfirmed = 1`. -/
theorem root_entry_missing_or_doubled :
    (∃ r, GetNotarizationData (rootedChain [opRetOut]) 7 0 CChainNotarizationData.fresh
        = .ret (true, r) ∧
      r.vtx = [(22, extendingTx.notarization)] ∧ r.lastConfirmed = 0) ∧
    (∃ r, GetNotarizationData (rootedChain [finalizationOut, finalizationOut]) 7 0
          CChainNotarizationData.fresh = .ret (true, r) ∧
      r.vtx = [(11, rootNotarization), (11, rootNotarization), (22, extendingTx.notarization)] ∧
      r.lastConfirmed = 1) :=
  ⟨⟨_, rfl, rfl, rfl⟩, ⟨_, rfl, rfl, rfl⟩⟩

/-- C12: when the transaction 11 named by the earliest notarization cannot be read
(`unrootedChain`) the call returns false with an empty `vtx`; when it can be read and has
no notarization output paying the finalization address (`rootedChain [opRetOut]`) the call
returns true with notarization data. -/
theorem unresolved_root_still_succeeds :
    (∃ r, GetNotarizationData unrootedChain 7 0 CChainNotarizationData.fresh
        = .ret (false, r) ∧ r.vtx = []) ∧
    (rootedChain [opRetOut]).myGetTransaction 11 = some (confirmedRoot [opRetOut], 21) ∧
    (∃ r, GetNotarizationData (rootedChain [opRetOut]) 7 0 CChainNotarizationData.fresh
        = .ret (true, r) ∧
      r.vtx = [(22, extendingTx.notarization)] ∧ r.forks = [[0]] ∧ r.bestChain = 0) :=
  ⟨⟨_, rfl, rfl⟩, rfl, ⟨_, rfl, rfl, rfl, rfl⟩⟩

/-- C13: given the list of unspent finalization outputs, `GetNotarizationData` throws
"cannot retrieve transaction" as soon as the transaction of one of them, anywhere in the
list, cannot be read; and when every transaction can be read and none carries a valid
notarization (in particular when the list is empty) it returns false without throwing,
leaving the data as it was apart from the version. -/
theorem unreadable_throws_none_valid_not_found (env : ChainState) (chainID : uint160)
    (ecode : Nat) (nd : CChainNotarizationData) (outs : List CAddressUnspentKey)
    (hout : env.GetAddressUnspent (env.GetConditionID chainID env.EVAL_FINALIZENOTARIZATION)
      = some outs) :
    ((∃ o ∈ outs, env.myGetTransaction o.txhash = none) →
      GetNotarizationData env chainID ecode nd = .threw "cannot retrieve transaction") ∧
    ((∀ o ∈ outs, ∃ ntx blkHash, env.myGetTransaction o.txhash = some (ntx, blkHash) ∧
        ntx.notarization.valid = false) →
      GetNotarizationData env chainID ecode nd
        = .ret (false, { nd with version := env.PBAAS_VERSION })) := by
  constructor
  · intro h
    unfold GetNotarizationData
    simp only [hout]
    rw [scanOutputs_unreadable env outs ScanState.init h]
  · intro h
    obtain ⟨st1, hst1, hsorted⟩ := scanOutputs_nothing_kept env outs ScanState.init
      (fun o ho => by
        obtain ⟨ntx, blkHash, htx, hv⟩ := h o ho
        exact ⟨ntx, blkHash, htx, Or.inl hv⟩)
    unfold GetNotarizationData
    simp only [hout, hst1]
    have hnil : st1.sorted = [] := by rw [hsorted]; rfl
    rw [hnil]

/-- C13 on `unreadableState`, where the second of three outputs belongs to the unknown
transaction 99, and on `invalidOnly`, whose only output carries no valid notarization. -/
theorem unreadable_throws_none_valid_not_found_witness :
    (unreadableState.GetAddressUnspent
        (unreadableState.GetConditionID 7 unreadableState.EVAL_FINALIZENOTARIZATION)
      = some [⟨11, 0⟩, ⟨99, 0⟩, ⟨13, 0⟩] ∧
      unreadableState.myGetTransaction 99 = none ∧
      GetNotarizationData unreadableState 7 0 CChainNotarizationData.fresh
        = .threw "cannot retrieve transaction") ∧
    (invalidOnly.GetAddressUnspent
        (invalidOnly.GetConditionID 7 invalidOnly.EVAL_FINALIZENOTARIZATION)
      = some [⟨31, 0⟩] ∧
      GetNotarizationData invalidOnly 7 0 CChainNotarizationData.fresh
        = .ret (false, { CChainNotarizationData.fresh with version := 1 })) :=
  ⟨⟨rfl, rfl,
      (unreadable_throws_none_valid_not_found unreadableState 7 0 CChainNotarizationData.fresh
        [⟨11, 0⟩, ⟨99, 0⟩, ⟨13, 0⟩] rfl).1 ⟨⟨99, 0⟩, by simp, rfl⟩⟩,
    ⟨rfl,
      (unreadable_throws_none_valid_not_found invalidOnly 7 0 CChainNotarizationData.fresh
        [⟨31, 0⟩] rfl).2 (by
          intro o ho
          simp only [List.mem_singleton] at ho
          subst ho
          exact ⟨_, _, rfl, rfl⟩)⟩⟩

/-- C14: on `rootedNode`, `vtx` is the root entry (id 11, cross notarization 80) followed by
the entry of transaction 12 (id 22, cross notarization 81). Called with the candidate set
81, the call reports the triple of entry 0: `crosstxid` 80, which is not a candidate, and
`txid` 11; not that of entry 1, the entry of highest index whose cross notarization is a
candidate. -/
theorem match_ignores_candidates :
    ∃ nData R,
      GetNotarizationData (rootedNode [⟨11, 1⟩] []).chain 7 2 CChainNotarizationData.fresh
        = .ret (true, nData) ∧
      nData.vtx = [(11, rootNotarization), (22, extendingTx.notarization)] ∧
      extendingTx.notarization.crossNotarization = 81 ∧
      crossNotarizationFrom (rootedNode [⟨11, 1⟩] []) 7 2 [81] = .ret R ∧
      R.ret = [("crosstxid", .hex 80), ("txid", .hex 11),
        ("rawtx", .rawtx (confirmedRoot [finalizationOut, opRetOut]))] :=
  ⟨_, _, rfl, rfl, rfl, rfl, rfl⟩

/-- C15: on `rootedNode` no entry of `vtx` has the cross notarization 99 (they have 80 and
81); called with the candidate set 99, the call returns an object with the three pairs of
entry 0, not an empty object. -/
theorem no_match_still_reports :
    ∃ nData R,
      GetNotarizationData (rootedNode [⟨11, 1⟩] []).chain 7 2 CChainNotarizationData.fresh
        = .ret (true, nData) ∧
      nData.vtx.map (fun e => e.2.crossNotarization) = [80, 81] ∧
      crossNotarizationFrom (rootedNode [⟨11, 1⟩] []) 7 2 [99] = .ret R ∧
      R.ret = [("crosstxid", .hex 80), ("txid", .hex 11),
        ("rawtx", .rawtx (confirmedRoot [finalizationOut, opRetOut]))] ∧
      R.ret ≠ [] :=
  ⟨_, _, rfl, rfl, rfl, rfl, by decide⟩

/-- C16: a call with no candidate and the accepted class (2) on data without confirmed entry
does not take the bootstrap branch. (a) On `straightLine` the result is empty. (b) On
`bootstrapPair`, where every id recorded in `vtx` is a txid, the result holds the triples
of entry 1 and of entry 0, in that order. In both `lastConfirmed` is -1 and there is a
fork. -/
theorem bootstrap_branch_not_taken :
    (∃ nData R,
      GetNotarizationData (stateOf straightLine) 7 2 CChainNotarizationData.fresh
        = .ret (true, nData) ∧
      nData.lastConfirmed = -1 ∧ nData.forks ≠ [] ∧
      crossNotarizationFrom
          (nodeOf (stateOf straightLine) (straightLine.map (fun t => (t.1, t.2.1))) [⟨11, 0⟩] [])
          7 2 [] = .ret R ∧
      R.ret = []) ∧
    (∃ nData R,
      GetNotarizationData (stateOf bootstrapPair) 7 2 CChainNotarizationData.fresh
        = .ret (true, nData) ∧
      nData.lastConfirmed = -1 ∧ nData.forks ≠ [] ∧
      nData.vtx.map Prod.fst = [100, 101] ∧
      crossNotarizationFrom
          (nodeOf (stateOf bootstrapPair) (bootstrapPair.map (fun t => (t.1, t.2.1)))
            [⟨100, 0⟩] [])
          7 2 [] = .ret R ∧
      R.ret.map Prod.fst = ["crosstxid", "txid", "rawtx", "crosstxid", "txid", "rawtx"] ∧
      R.ret[1]? = some ("txid", .hex 101) ∧ R.ret[4]? = some ("txid", .hex 100)) :=
  ⟨⟨_, _, rfl, rfl, by decide, rfl, rfl⟩, ⟨_, _, rfl, rfl, by decide, rfl, rfl, rfl, rfl, rfl⟩⟩

theorem collectPeers_of_peers (vNodes : List CNode) (i : Nat) (h : vNodes ≠ []) :
    collectPeers vNodes i = .undefined := by
  unfold collectPeers
  have hne : vNodes.isEmpty = false := by
    cases vNodes with
    | nil => exact absurd rfl h
    | cons a l => rfl
  simp only [hne, Bool.false_eq_true, if_false]
  exact peerLoop_undefined _ _

theorem buildProof_not_threw (st : NodeState) (tx : CTransaction) (blkHash : uint256)
    (loc : Located) (code : String) : buildProof st tx blkHash loc ≠ .threw code := by
  unfold buildProof
  simp only
  cases loc.addressIndex[loc.i]? with
  | none => simp
  | some key =>
      simp only
      cases stripOpRet tx with
      | none => simp
      | some strippedTx =>
          simp only
          by_cases hv : st.vNodes = []
          · simp [collectPeers, hv]
          · rw [collectPeers_of_peers st.vNodes loc.i hv]
            simp

/-- Every proof bundle that is built holds the header object twice, at the positions 0 and
1, then the stripped transaction and the proof of the transaction. -/
theorem buildProof_objects (st : NodeState) (tx : CTransaction) (blkHash : uint256)
    (loc : Located) (locals : CrossLocals)
    (h : buildProof st tx blkHash loc = .ret locals) :
    ∃ strippedTx txProof,
      stripOpRet tx = some strippedTx ∧
      locals.chainObjects =
        [ { objectType := .CHAINOBJ_HEADER, object := .header (st.GetBlockHeader loc.proofheight) },
          { objectType := .CHAINOBJ_HEADER, object := .header (st.GetBlockHeader loc.proofheight) },
          { objectType := .CHAINOBJ_TRANSACTION, object := .transaction strippedTx },
          { objectType := .CHAINOBJ_PROOF, object := .proof txProof } ] ∧
      locals.orp.map Prod.fst =
        [.CHAINOBJ_HEADER, st.ObjTypeCode (st.GetBlockHeader loc.proofheight),
          .CHAINOBJ_TRANSACTION, .CHAINOBJ_PROOF] := by
  unfold buildProof at h
  simp only at h
  cases hkey : loc.addressIndex[loc.i]? with
  | none => simp [hkey] at h
  | some key =>
      simp only [hkey] at h
      cases hstrip : stripOpRet tx with
      | none => simp [hstrip] at h
      | some strippedTx =>
          simp only [hstrip] at h
          cases hpeers : collectPeers st.vNodes loc.i with
          | threw code => simp [hpeers] at h
          | undefined => simp [hpeers] at h
          | ret collected =>
              simp only [hpeers, Outcome.ret.injEq] at h
              subst h
              exact ⟨strippedTx, _, rfl, rfl, rfl⟩

/-- C17, as stated, fails: on `rootedNode` with the hash 11 of the matched transaction
twice among the address index entries, the call does not fail: it returns the result and
builds the proof with the first of the two entries. -/
theorem ambiguous_index_match_proceeds :
    ∃ R locals,
      (rootedNode [⟨11, 1⟩, ⟨11, 3⟩] []).GetAddressIndex 7 1 1 = some [⟨11, 1⟩, ⟨11, 3⟩] ∧
      crossNotarizationFrom (rootedNode [⟨11, 1⟩, ⟨11, 3⟩] []) 7 2 [81] = .ret R ∧
      R.ret.map Prod.fst = ["crosstxid", "txid", "rawtx"] ∧
      R.built = some locals ∧
      locals.txProofLeaf = { nIndex := 0, branch := [6001] } :=
  ⟨_, _, rfl, rfl, rfl, rfl, rfl⟩

/-- C17, amended: in the block of `getcrossnotarization` that follows a match, once the
block of the matched transaction is found and read and the address index entries of its
height are read, the call fails with the internal error "Notarization not found in
address index - possible corruption" when the hash of the transaction occurs in none of
the entries; when it occurs in one or more of them the call raises no error and goes on
with the first entry that has the hash. -/
theorem absent_hash_throws_present_proceeds (st : NodeState) (chainID : uint160)
    (tx : CTransaction) (blkHash : uint256) (prevHeight : Int)
    (addressIndex : List CAddressIndexKey)
    (hblk : st.chain.mapBlockIndex blkHash = some prevHeight)
    (hread : st.ReadBlockFromDisk blkHash = true)
    (hidx : st.GetAddressIndex
        (st.chain.GetConditionID chainID st.chain.EVAL_FINALIZENOTARIZATION)
        prevHeight prevHeight = some addressIndex) :
    ((∀ e ∈ addressIndex, e.txhash ≠ tx.hash) →
      proofTail st chainID tx blkHash
        = .threw "Notarization not found in address index - possible corruption") ∧
    ((∃ e ∈ addressIndex, e.txhash = tx.hash) →
      ∃ i key,
        addressIndex[i]? = some key ∧ key.txhash = tx.hash ∧
        (∀ j key1, j < i → addressIndex[j]? = some key1 → key1.txhash ≠ tx.hash) ∧
        locateTx st chainID tx blkHash
          = .ret { proofheight := st.chainActiveHeight, prevHeight := prevHeight
                   addressIndex := addressIndex, i := i } ∧
        proofTail st chainID tx blkHash
          = buildProof st tx blkHash
              { proofheight := st.chainActiveHeight, prevHeight := prevHeight
                addressIndex := addressIndex, i := i } ∧
        ∀ code, proofTail st chainID tx blkHash ≠ .threw code) := by
  obtain ⟨habs, hpres⟩ := findTxIndex_spec tx.hash addressIndex
  constructor
  · intro h
    unfold proofTail locateTx
    simp [hblk, hread, hidx, habs h]
  · intro h
    obtain ⟨key, hkey, hk, hlow⟩ := hpres h
    have hlt : findTxIndex tx.hash addressIndex < addressIndex.length :=
      (List.getElem?_eq_some_iff.1 hkey).1
    have hloc : locateTx st chainID tx blkHash
        = .ret { proofheight := st.chainActiveHeight, prevHeight := prevHeight
                 addressIndex := addressIndex, i := findTxIndex tx.hash addressIndex } := by
      unfold locateTx
      simp [hblk, hread, hidx, Nat.ne_of_lt hlt]
    have htail : proofTail st chainID tx blkHash
        = buildProof st tx blkHash
            { proofheight := st.chainActiveHeight, prevHeight := prevHeight
              addressIndex := addressIndex, i := findTxIndex tx.hash addressIndex } := by
      unfold proofTail
      rw [hloc]
    refine ⟨_, key, hkey, hk, hlow, hloc, htail, ?_⟩
    intro code
    rw [htail]
    exact buildProof_not_threw _ _ _ _ _

/-- C17, amended, on `rootedNode` for the transaction 11 of block 21: with an empty address
index the block throws, with the hash 11 at the positions 1 and 2 it goes on with
position 1. -/
theorem absent_hash_throws_present_proceeds_witness :
    ((rootedNode [] []).chain.mapBlockIndex 21 = some 1 ∧
      proofTail (rootedNode [] []) 7 (confirmedRoot [finalizationOut, opRetOut]) 21
        = .threw "Notarization not found in address index - possible corruption") ∧
    ((rootedNode [⟨12, 0⟩, ⟨11, 1⟩, ⟨11, 3⟩] []).chain.mapBlockIndex 21 = some 1 ∧
      ∃ i key,
        [(⟨12, 0⟩ : CAddressIndexKey), ⟨11, 1⟩, ⟨11, 3⟩][i]? = some key ∧
        key.txhash = (confirmedRoot [finalizationOut, opRetOut]).hash ∧
        (∀ j key1, j < i → [(⟨12, 0⟩ : CAddressIndexKey), ⟨11, 1⟩, ⟨11, 3⟩][j]? = some key1 →
          key1.txhash ≠ (confirmedRoot [finalizationOut, opRetOut]).hash) ∧
        locateTx (rootedNode [⟨12, 0⟩, ⟨11, 1⟩, ⟨11, 3⟩] []) 7
            (confirmedRoot [finalizationOut, opRetOut]) 21
          = .ret { proofheight := 9, prevHeight := 1
                   addressIndex := [⟨12, 0⟩, ⟨11, 1⟩, ⟨11, 3⟩], i := i } ∧
        proofTail (rootedNode [⟨12, 0⟩, ⟨11, 1⟩, ⟨11, 3⟩] []) 7
            (confirmedRoot [finalizationOut, opRetOut]) 21
          = buildProof (rootedNode [⟨12, 0⟩, ⟨11, 1⟩, ⟨11, 3⟩] [])
              (confirmedRoot [finalizationOut, opRetOut]) 21
              { proofheight := 9, prevHeight := 1
                addressIndex := [⟨12, 0⟩, ⟨11, 1⟩, ⟨11, 3⟩], i := i } ∧
        ∀ code, proofTail (rootedNode [⟨12, 0⟩, ⟨11, 1⟩, ⟨11, 3⟩] []) 7
            (confirmedRoot [finalizationOut, opRetOut]) 21 ≠ .threw code) :=
  ⟨⟨rfl,
      (absent_hash_throws_present_proceeds (rootedNode [] []) 7
        (confirmedRoot [finalizationOut, opRetOut]) 21 1 [] rfl rfl rfl).1 (by simp)⟩,
    ⟨rfl,
      (absent_hash_throws_present_proceeds (rootedNode [⟨12, 0⟩, ⟨11, 1⟩, ⟨11, 3⟩] []) 7
        (confirmedRoot [finalizationOut, opRetOut]) 21 1 [⟨12, 0⟩, ⟨11, 1⟩, ⟨11, 3⟩]
        rfl rfl rfl).2 ⟨⟨11, 1⟩, by simp, rfl⟩⟩⟩

/-- C18: on `rootedNode` a match is found and the bundle is built; its second object is the
header object again (type `CHAINOBJ_HEADER`), not the Merkle proof of the header, so the
types of the four objects are header, header, transaction, proof. -/
theorem bundle_repeats_header :
    ∃ R locals,
      crossNotarizationFrom (rootedNode [⟨11, 1⟩] []) 7 2 [81] = .ret R ∧
      R.built = some locals ∧
      locals.chainObjects.map (fun o => o.objectType)
        = [.CHAINOBJ_HEADER, .CHAINOBJ_HEADER, .CHAINOBJ_TRANSACTION, .CHAINOBJ_PROOF] ∧
      locals.chainObjects[1]?
        = some { objectType := .CHAINOBJ_HEADER, object := .header { blockHash := 29 } } ∧
      locals.chainObjects[1]? = locals.chainObjects[0]? :=
  ⟨_, _, rfl, rfl, rfl, rfl, rfl⟩

theorem locateTx_index (st : NodeState) (chainID : uint160) (tx : CTransaction)
    (blkHash : uint256) (loc : Located) (h : locateTx st chainID tx blkHash = .ret loc) :
    ∃ key, loc.addressIndex[loc.i]? = some key := by
  unfold locateTx at h
  cases hblk : st.chain.mapBlockIndex blkHash with
  | none => simp [hblk] at h
  | some prevHeight =>
      simp only [hblk] at h
      cases hread : st.ReadBlockFromDisk blkHash with
      | false => simp [hread] at h
      | true =>
          simp only [hread, Bool.not_true, Bool.false_eq_true, if_false] at h
          cases hidx : st.GetAddressIndex
              (st.chain.GetConditionID chainID st.chain.EVAL_FINALIZENOTARIZATION)
              prevHeight prevHeight with
          | none => simp [hidx] at h
          | some addressIndex =>
              simp only [hidx] at h
              by_cases hend : findTxIndex tx.hash addressIndex = addressIndex.length
              · simp [hend] at h
              · simp only [beq_iff_eq, hend, if_false, Outcome.ret.injEq] at h
                subst h
                obtain ⟨habs, hpres⟩ := findTxIndex_spec tx.hash addressIndex
                have hex : ∃ e ∈ addressIndex, e.txhash = tx.hash := by
                  by_contra hno
                  exact hend (habs (fun e he heq => hno ⟨e, he, heq⟩))
                obtain ⟨key, hkey, -⟩ := hpres hex
                exact ⟨key, hkey⟩

/-- C19: for a matched transaction whose last output is `last`, the transaction made at
lines 703-709 has the inputs of the matched transaction and its outputs, without the last
one when `last` is an op-return and all of them otherwise; in every bundle that is built
from the matched transaction the third object is this transaction and the third entry of
the op-return proof carries its hash; and a bundle is built whenever the transaction is
located in the address index and no peer is connected. -/
theorem embedded_tx_strips_trailing_opret (st : NodeState) (chainID : uint160)
    (tx : CTransaction) (blkHash : uint256) (last : CTxOut)
    (hlast : tx.vout.getLast? = some last) :
    stripOpRet tx
      = some { vin := tx.vin
               vout := if last.isOpReturn then tx.vout.dropLast else tx.vout } ∧
    (∀ locals, proofTail st chainID tx blkHash = .ret locals →
      locals.chainObjects[2]?
        = some { objectType := .CHAINOBJ_TRANSACTION
                 object := .transaction
                   { vin := tx.vin
                     vout := if last.isOpReturn then tx.vout.dropLast else tx.vout } } ∧
      locals.orp[2]?
        = some (.CHAINOBJ_TRANSACTION,
            st.GetHash { vin := tx.vin
                         vout := if last.isOpReturn then tx.vout.dropLast else tx.vout })) ∧
    (∀ loc, locateTx st chainID tx blkHash = .ret loc → st.vNodes = [] →
      ∃ locals, proofTail st chainID tx blkHash = .ret locals ∧
        locals.chainObjects[2]?
          = some { objectType := .CHAINOBJ_TRANSACTION
                   object := .transaction
                     { vin := tx.vin
                       vout := if last.isOpReturn then tx.vout.dropLast else tx.vout } } ∧
        locals.orp[2]?
          = some (.CHAINOBJ_TRANSACTION,
              st.GetHash { vin := tx.vin
                           vout := if last.isOpReturn then tx.vout.dropLast
                             else tx.vout })) := by
  have hstrip : stripOpRet tx
      = some { vin := tx.vin
               vout := if last.isOpReturn then tx.vout.dropLast else tx.vout } := by
    unfold stripOpRet
    simp only [hlast]
    split_ifs <;> rfl
  have hbuilt : ∀ locals, proofTail st chainID tx blkHash = .ret locals →
      locals.chainObjects[2]?
        = some { objectType := .CHAINOBJ_TRANSACTION
                 object := .transaction
                   { vin := tx.vin
                     vout := if last.isOpReturn then tx.vout.dropLast else tx.vout } } ∧
      locals.orp[2]?
        = some (.CHAINOBJ_TRANSACTION,
            st.GetHash { vin := tx.vin
                         vout := if last.isOpReturn then tx.vout.dropLast else tx.vout }) := by
    intro locals h
    unfold proofTail at h
    cases hloc : locateTx st chainID tx blkHash with
    | threw code => simp [hloc] at h
    | undefined => simp [hloc] at h
    | ret loc =>
        simp only [hloc] at h
        unfold buildProof at h
        simp only [hstrip] at h
        cases hkey : loc.addressIndex[loc.i]? with
        | none => simp [hkey] at h
        | some key =>
            simp only [hkey] at h
            cases hpeers : collectPeers st.vNodes loc.i with
            | threw code => simp [hpeers] at h
            | undefined => simp [hpeers] at h
            | ret collected =>
                simp only [hpeers, Outcome.ret.injEq] at h
                subst h
                exact ⟨rfl, rfl⟩
  refine ⟨hstrip, hbuilt, ?_⟩
  intro loc hloc hnone
  obtain ⟨key, hkey⟩ := locateTx_index st chainID tx blkHash loc hloc
  have hpeers : collectPeers st.vNodes loc.i = .ret [] := by
    simp [collectPeers, hnone]
  have hprod : ∃ locals, proofTail st chainID tx blkHash = .ret locals := by
    unfold proofTail
    rw [hloc]
    unfold buildProof
    simp only [hkey, hstrip, hpeers]
    exact ⟨_, rfl⟩
  obtain ⟨locals, hlocals⟩ := hprod
  exact ⟨locals, hlocals, hbuilt locals hlocals⟩

/-- C19 on `rootedNode` with no peer connected, for the transaction 11, whose outputs are a
finalization output followed by an op-return: the transaction is located, the bundle is
built, and the embedded transaction keeps the input and the finalization output only; the
whole call returns with that bundle. -/
theorem embedded_tx_strips_trailing_opret_witness :
    (confirmedRoot [finalizationOut, opRetOut]).vout.getLast? = some opRetOut ∧
    stripOpRet (confirmedRoot [finalizationOut, opRetOut])
      = some { vin := [{ hash := 5, n := 0 }], vout := [finalizationOut] } ∧
    locateTx (rootedNode [⟨11, 1⟩] []) 7 (confirmedRoot [finalizationOut, opRetOut]) 21
      = .ret { proofheight := 9, prevHeight := 1, addressIndex := [⟨11, 1⟩], i := 0 } ∧
    (∃ locals, proofTail (rootedNode [⟨11, 1⟩] []) 7
        (confirmedRoot [finalizationOut, opRetOut]) 21 = .ret locals ∧
      locals.chainObjects[2]?
        = some { objectType := .CHAINOBJ_TRANSACTION
                 object := .transaction
                   { vin := (confirmedRoot [finalizationOut, opRetOut]).vin
                     vout := if opRetOut.isOpReturn
                       then (confirmedRoot [finalizationOut, opRetOut]).vout.dropLast
                       else (confirmedRoot [finalizationOut, opRetOut]).vout } } ∧
      locals.orp[2]?
        = some (.CHAINOBJ_TRANSACTION,
            (rootedNode [⟨11, 1⟩] []).GetHash
              { vin := (confirmedRoot [finalizationOut, opRetOut]).vin
                vout := if opRetOut.isOpReturn
                  then (confirmedRoot [finalizationOut, opRetOut]).vout.dropLast
                  else (confirmedRoot [finalizationOut, opRetOut]).vout })) ∧
    (∃ R locals, crossNotarizationFrom (rootedNode [⟨11, 1⟩] []) 7 2 [81] = .ret R ∧
      R.built = some locals ∧
      locals.chainObjects[2]?
        = some { objectType := .CHAINOBJ_TRANSACTION
                 object := .transaction
                   { vin := [{ hash := 5, n := 0 }], vout := [finalizationOut] } } ∧
      locals.orp[2]? = some (.CHAINOBJ_TRANSACTION, 3001)) :=
  ⟨rfl,
    (embedded_tx_strips_trailing_opret (rootedNode [⟨11, 1⟩] []) 7
      (confirmedRoot [finalizationOut, opRetOut]) 21 opRetOut rfl).1,
    rfl,
    (embedded_tx_strips_trailing_opret (rootedNode [⟨11, 1⟩] []) 7
      (confirmedRoot [finalizationOut, opRetOut]) 21 opRetOut rfl).2.2 _ rfl rfl,
    ⟨_, _, rfl, rfl, rfl, rfl⟩⟩

/-- C20: on `rootedNode` with one connected peer that completed its handshake and is not
inbound, a match is found, the transaction is located at index 0 of the address index, and
the call ends in undefined behaviour: the loop of lines 734-743 reads `vNodes[0]`, increments
`i` instead of `j`, and reads `vNodes[1]`, past the only peer. With no peer connected the
call returns with an empty peer list. -/
theorem peer_loop_reads_past_end :
    (rootedNode [⟨11, 1⟩] [outboundPeer]).vNodes = [outboundPeer] ∧
    locateTx (rootedNode [⟨11, 1⟩] [outboundPeer]) 7
        (confirmedRoot [finalizationOut, opRetOut]) 21
      = .ret { proofheight := 9, prevHeight := 1, addressIndex := [⟨11, 1⟩], i := 0 } ∧
    collectPeers [outboundPeer] 0 = .undefined ∧
    crossNotarizationFrom (rootedNode [⟨11, 1⟩] [outboundPeer]) 7 2 [81] = .undefined ∧
    (∃ R locals, crossNotarizationFrom (rootedNode [⟨11, 1⟩] []) 7 2 [81] = .ret R ∧
      R.built = some locals ∧ locals.nodes = []) :=
  ⟨rfl, rfl, rfl, rfl, ⟨_, _, rfl, rfl, rfl⟩⟩

/-! ## The chain registry -/

theorem definitionLoop_spec (st : NodeState) (name : String) :
    ∀ (idx : List CAddressIndexKey) (chainDef : CPBaaSChainDefinition),
      (∀ d, (readableDefinitions st idx).find? (fun d => d.valid && d.name == name) = some d →
        definitionLoop st name idx chainDef = (true, d)) ∧
      ((readableDefinitions st idx).find? (fun d => d.valid && d.name == name) = none →
        (definitionLoop st name idx chainDef).1 = false) := by
  intro idx
  induction idx with
  | nil =>
      intro chainDef
      simp [readableDefinitions, definitionLoop]
  | cons txidx rest ih =>
      intro chainDef
      unfold readableDefinitions definitionLoop
      cases htx : st.chain.myGetTransaction txidx.txhash with
      | none => simpa using ih chainDef
      | some tb =>
          obtain ⟨tx, blkHash⟩ := tb
          simp only
          by_cases hp : (tx.chainDef.valid && tx.chainDef.name == name) = true
          · simp only [List.find?_cons, hp, if_true]
            constructor
            · intro d hd
              simp only [Option.some.injEq] at hd
              rw [hd]
            · intro hnone
              cases hnone
          · have hp1 : (tx.chainDef.valid && tx.chainDef.name == name) = false := by
              simpa using hp
            simp only [List.find?_cons, hp1, Bool.false_eq_true, if_false]
            exact ih tx.chainDef

theorem definedLoop_spec (st : NodeState) (includeExpired : Bool) :
    ∀ (idx : List CAddressIndexKey) (chains : List CPBaaSChainDefinition),
      definedLoop st includeExpired idx chains
        = chains ++ (readableDefinitions st idx).filter (fun d =>
            includeExpired ||
              !(d.endBlock != 0 && decide (d.endBlock < st.chainActiveHeight))) := by
  intro idx
  induction idx with
  | nil => intro chains; simp [definedLoop, readableDefinitions]
  | cons txidx rest ih =>
      intro chains
      unfold definedLoop readableDefinitions
      cases htx : st.chain.myGetTransaction txidx.txhash with
      | none => simpa using ih chains
      | some tb =>
          obtain ⟨tx, blkHash⟩ := tb
          simp only
          have hrel : (!includeExpired && tx.chainDef.endBlock != 0
              && decide (tx.chainDef.endBlock < st.chainActiveHeight))
              = !(includeExpired || !(tx.chainDef.endBlock != 0
                  && decide (tx.chainDef.endBlock < st.chainActiveHeight))) := by
            rw [Bool.not_or, Bool.not_not, Bool.and_assoc]
          rw [hrel]
          cases hk : (includeExpired || !(tx.chainDef.endBlock != 0
              && decide (tx.chainDef.endBlock < st.chainActiveHeight))) with
          | true =>
              rw [if_neg (by decide), ih, List.filter_cons]
              simp only [hk, if_true, List.append_assoc, List.singleton_append]
          | false =>
              rw [if_pos (by decide), ih, List.dropLast_concat, List.filter_cons]
              simp only [hk, Bool.false_eq_true, if_false]

/-- C21: `GetChainDefinition` returns true exactly when the definition of some readable
transaction of the definition-address index is valid and has the requested name (equal as
strings, so case-sensitive); it then yields the first such definition in index order; and
when there is none it returns false and `getchaindefinition`, for a name within the length
limit, returns null. -/
theorem chain_definition_lookup (ctx : RpcContext) (st : NodeState) (name : String)
    (chainDef : CPBaaSChainDefinition) :
    ((GetChainDefinition ctx st name chainDef).1 = true ↔
      ∃ d ∈ readableDefinitions st (definitionIndex ctx st), d.valid = true ∧ d.name = name) ∧
    (∀ d, (readableDefinitions st (definitionIndex ctx st)).find?
          (fun d => d.valid && d.name == name) = some d →
      GetChainDefinition ctx st name chainDef = (true, d)) ∧
    ((∀ d ∈ readableDefinitions st (definitionIndex ctx st),
          ¬ (d.valid = true ∧ d.name = name)) →
      (GetChainDefinition ctx st name chainDef).1 = false ∧
      (name.utf8ByteSize ≤ ctx.KOMODO_ASSETCHAIN_MAXLEN - 1 →
        getchaindefinition ctx st false [.str name] = .ret none)) := by
  have hloop : ∀ cd, GetChainDefinition ctx st name cd
      = definitionLoop st name (definitionIndex ctx st) cd := by
    intro cd
    unfold GetChainDefinition definitionIndex
    cases st.GetAddressIndex ctx.definitionKeyID 0 0 with
    | none => rfl
    | some idx => rfl
  have hfalse : (∀ d ∈ readableDefinitions st (definitionIndex ctx st),
        ¬ (d.valid = true ∧ d.name = name)) →
      ∀ cd, (GetChainDefinition ctx st name cd).1 = false := by
    intro hno cd
    rw [hloop]
    apply (definitionLoop_spec st name (definitionIndex ctx st) cd).2
    rw [List.find?_eq_none]
    intro d hd
    have := hno d hd
    simpa using this
  refine ⟨?_, ?_, ?_⟩
  · constructor
    · intro htrue
      by_contra hno
      have hno1 : ∀ d ∈ readableDefinitions st (definitionIndex ctx st),
          ¬ (d.valid = true ∧ d.name = name) := by
        intro d hd hdn
        exact hno ⟨d, hd, hdn⟩
      rw [hfalse hno1 chainDef] at htrue
      cases htrue
    · rintro ⟨d, hd, hv, hn⟩
      cases hfind : (readableDefinitions st (definitionIndex ctx st)).find?
          (fun d => d.valid && d.name == name) with
      | none =>
          rw [List.find?_eq_none] at hfind
          have := hfind d hd
          simp [hv, hn] at this
      | some d1 =>
          rw [hloop, (definitionLoop_spec st name (definitionIndex ctx st) chainDef).1 d1 hfind]
  · intro d hd
    rw [hloop]
    exact (definitionLoop_spec st name (definitionIndex ctx st) chainDef).1 d hd
  · intro hno
    refine ⟨hfalse hno chainDef, ?_⟩
    intro hlen
    unfold getchaindefinition
    have hnot : ¬ (name.utf8ByteSize > ctx.KOMODO_ASSETCHAIN_MAXLEN - 1) := not_lt.mpr hlen
    simp [paramAt, UniValue.get_str, hnot, hfalse hno]

/-- C21 on `registryNode`: "TESTCHAIN" yields the first of the two definitions of that name;
"NOPE", carried only by an invalid definition, and "testchain" give false, and
`getchaindefinition` returns null for "NOPE". -/
theorem chain_definition_lookup_witness :
    GetChainDefinition (contextOf true) registryNode "TESTCHAIN"
        { valid := false, name := "", endBlock := 0 }
      = (true, { valid := true, name := "TESTCHAIN", endBlock := 5 }) ∧
    (GetChainDefinition (contextOf true) registryNode "NOPE"
        { valid := false, name := "", endBlock := 0 }).1 = false ∧
    getchaindefinition (contextOf true) registryNode false [.str "NOPE"] = .ret none ∧
    (GetChainDefinition (contextOf true) registryNode "testchain"
        { valid := false, name := "", endBlock := 0 }).1 = false :=
  ⟨(chain_definition_lookup (contextOf true) registryNode "TESTCHAIN"
      { valid := false, name := "", endBlock := 0 }).2.1 _ rfl,
    ((chain_definition_lookup (contextOf true) registryNode "NOPE"
      { valid := false, name := "", endBlock := 0 }).2.2 (by decide)).1,
    ((chain_definition_lookup (contextOf true) registryNode "NOPE"
      { valid := false, name := "", endBlock := 0 }).2.2 (by decide)).2 (by decide),
    ((chain_definition_lookup (contextOf true) registryNode "testchain"
      { valid := false, name := "", endBlock := 0 }).2.2 (by decide)).1⟩

/-- C22: `GetDefinedChains` appends to `chains` the definitions of the readable
transactions in index order, leaving out, when `includeExpired` is false, exactly those
with `endBlock != 0` and `endBlock` below the current height, and nothing when it is true;
`getdefinedchains` passes `includeExpired = false` when the argument is missing or is no
boolean, and the boolean otherwise. -/
theorem defined_chains_listing (ctx : RpcContext) (st : NodeState)
    (chains : List CPBaaSChainDefinition) :
    GetDefinedChains ctx st chains false
      = chains ++ (readableDefinitions st (definitionIndex ctx st)).filter (fun d =>
          !(d.endBlock != 0 && decide (d.endBlock < st.chainActiveHeight))) ∧
    GetDefinedChains ctx st chains true
      = chains ++ readableDefinitions st (definitionIndex ctx st) ∧
    getdefinedchains ctx st false [] = .ret (GetDefinedChains ctx st [] false) ∧
    (∀ b, getdefinedchains ctx st false [.bool b] = .ret (GetDefinedChains ctx st [] b)) ∧
    (∀ s, getdefinedchains ctx st false [.str s] = .ret (GetDefinedChains ctx st [] false)) ∧
    (∀ n, getdefinedchains ctx st false [.num n] = .ret (GetDefinedChains ctx st [] false)) ∧
    (∀ vs, getdefinedchains ctx st false [.arr vs] = .ret (GetDefinedChains ctx st [] false)) ∧
    getdefinedchains ctx st false [.null] = .ret (GetDefinedChains ctx st [] false) ∧
    getdefinedchains ctx st false [.obj] = .ret (GetDefinedChains ctx st [] false) := by
  have hloop : ∀ inc, GetDefinedChains ctx st chains inc
      = definedLoop st inc (definitionIndex ctx st) chains := by
    intro inc
    unfold GetDefinedChains definitionIndex
    cases st.GetAddressIndex ctx.definitionKeyID 0 0 with
    | none => rfl
    | some idx => rfl
  refine ⟨?_, ?_, rfl, fun _ => rfl, fun _ => rfl, fun _ => rfl, fun _ => rfl, rfl, rfl⟩
  · rw [hloop, definedLoop_spec]
    simp
  · rw [hloop, definedLoop_spec]
    simp

/-! ## The arguments of the notarization entry points -/

/-- C23: on a chain that is not the Verus chain, with the evaluation codes accepted = 2 and
earned = 3, a call of `getnotarizationdata` and a call of `getcrossnotarization` that
supply the argument accepted = true are made with the code 3, earned; with accepted = false
they are made with 3 as well, and on the Verus chain accepted = true gives 2. -/
theorem accepted_true_keeps_default_class :
    (contextOf false).IsVerusActive = false ∧
    (rootedNode [] []).EVAL_ACCEPTEDNOTARIZATION = 2 ∧
    (rootedNode [] []).EVAL_EARNEDNOTARIZATION = 3 ∧
    getnotarizationdataArgs (contextOf false) (rootedNode [] [])
        [.str chainSeven, .bool true] = .ret (7, 3) ∧
    getcrossnotarizationArgs (contextOf false) (rootedNode [] [])
        [.str chainSeven, .arr [.str "51"], .bool true] = .ret (7, 3, [81]) ∧
    getnotarizationdataArgs (contextOf false) (rootedNode [] [])
        [.str chainSeven, .bool false] = .ret (7, 3) ∧
    getnotarizationdataArgs (contextOf true) (rootedNode [] [])
        [.str chainSeven, .bool true] = .ret (7, 2) :=
  ⟨rfl, rfl, rfl, rfl, rfl, rfl, rfl⟩

theorem parseTxids_null (ctx : RpcContext) (s : String) (post : List UniValue)
    (hnull : ctx.uint256S s = 0) :
    ∀ (pre : List UniValue) (txids : List uint256),
      (∀ v ∈ pre, ∃ t, v = .str t ∧ ctx.uint256S t ≠ 0) →
      parseTxids ctx (pre ++ .str s :: post) txids
        = .threw ("Invalid parameter for notarization ID: " ++ s) := by
  intro pre
  induction pre with
  | nil =>
      intro txids _
      simp [parseTxids, UniValue.get_str, hnull]
  | cons v rest ih =>
      intro txids hpre
      obtain ⟨t, hv, ht⟩ := hpre v (List.mem_cons_self _ _)
      subst hv
      have ht1 : (ctx.uint256S t == 0) = false := by simpa using ht
      simp only [List.cons_append, parseTxids, UniValue.get_str, ht1, Bool.false_eq_true,
        if_false]
      exact ih _ (fun v1 hv1 => hpre v1 (List.mem_cons_of_mem _ hv1))

/-- C24, as stated, fails: with a valid chain id, the number 5 as second argument, which is
no array, and the string "yes" as third argument, `getcrossnotarization` ends with the
`std::runtime_error` "JSON value is not a boolean as expected" of `get_bool` (line 569),
not with the `RPC_INVALID_PARAMETER` error of line 577; and with the array of the number
1 and the string "00", which parses to the null hash, it ends with the `std::runtime_error`
of `get_str` (line 584). -/
theorem type_error_precedes_invalid_parameter :
    getcrossnotarization (contextOf false) (rootedNode [] []) false
        [.str chainSeven, .num 5, .str "yes"]
      = .threw "JSON value is not a boolean as expected" ∧
    (contextOf false).uint256S "00" = 0 ∧
    getcrossnotarization (contextOf false) (rootedNode [] []) false
        [.str chainSeven, .arr [.num 1, .str "00"]]
      = .threw "JSON value is not a string as expected" :=
  ⟨rfl, rfl, rfl⟩

/-- C24, amended: for a call with two or three arguments, whatever the node state,
`getcrossnotarization` throws "Invalid chainid" when the first argument is no string or
decodes to the null id; with a chain id that is not null and a third argument that is
absent or a boolean, it throws "Invalid second parameter object type" when the second
argument is no array, and "Invalid parameter for notarization ID" when the array holds a
string that parses to the null hash after strings that parse to other hashes; and
`getnotarizationdata`, with one or two arguments, throws "Invalid chainid" in the same
case. All three are `RPC_INVALID_PARAMETER` errors, thrown before `GetNotarizationData` is
called. -/
theorem invalid_parameter_before_state (ctx : RpcContext) (st : NodeState)
    (p0 p1 : UniValue) (third : List UniValue)
    (hthird : third = [] ∨ ∃ b, third = [.bool b]) :
    ((∀ s, p0 = .str s → (ctx.ParseChainID s).getD 0 = 0) →
      (∀ anyThird, anyThird.length ≤ 1 →
        getcrossnotarization ctx st false (p0 :: p1 :: anyThird) = .threw "Invalid chainid") ∧
      getnotarizationdata ctx st false [p0] = .threw "Invalid chainid" ∧
      getnotarizationdata ctx st false [p0, p1] = .threw "Invalid chainid") ∧
    ((∃ s, p0 = .str s ∧ (ctx.ParseChainID s).getD 0 ≠ 0) →
      ((∀ values, p1 ≠ .arr values) →
        getcrossnotarization ctx st false (p0 :: p1 :: third)
          = .threw ("Invalid second parameter object type: " ++ toString p1.type)) ∧
      (∀ pre s post, p1 = .arr (pre ++ .str s :: post) →
        (∀ v ∈ pre, ∃ t, v = .str t ∧ ctx.uint256S t ≠ 0) → ctx.uint256S s = 0 →
        getcrossnotarization ctx st false (p0 :: p1 :: third)
          = .threw ("Invalid parameter for notarization ID: " ++ s))) := by
  constructor
  · intro hbad
    have hid : (match p0 with
        | .str s => (ctx.ParseChainID s).getD 0
        | _ => (0 : uint160)) = 0 := by
      cases p0 with
      | str s => exact hbad s rfl
      | null => rfl
      | obj => rfl
      | arr vs => rfl
      | num n => rfl
      | bool b => rfl
    refine ⟨?_, ?_, ?_⟩
    · intro anyThird hlen
      have hsize2 : ¬ (anyThird.length + 2 > 3) := by omega
      unfold getcrossnotarization getcrossnotarizationArgs
      simp [paramAt, hid, hsize2]
    · unfold getnotarizationdata getnotarizationdataArgs
      simp [paramAt, hid]
    · unfold getnotarizationdata getnotarizationdataArgs
      simp [paramAt, hid]
  · rintro ⟨s0, hp0, hgood⟩
    subst hp0
    have hid : ((ctx.ParseChainID s0).getD 0 == 0) = false := by simpa using hgood
    constructor
    · intro hnotarr
      rcases hthird with h3 | ⟨b, h3⟩ <;> subst h3
      · unfold getcrossnotarization getcrossnotarizationArgs
        cases p1 with
        | arr vs => exact absurd rfl (hnotarr vs)
        | null => simp [paramAt, hid, UniValue.type]
        | obj => simp [paramAt, hid, UniValue.type]
        | str s => simp [paramAt, hid, UniValue.type]
        | num n => simp [paramAt, hid, UniValue.type]
        | bool b => simp [paramAt, hid, UniValue.type]
      · unfold getcrossnotarization getcrossnotarizationArgs
        cases p1 with
        | arr vs => exact absurd rfl (hnotarr vs)
        | null => simp [paramAt, hid, UniValue.type, UniValue.get_bool]
        | obj => simp [paramAt, hid, UniValue.type, UniValue.get_bool]
        | str s => simp [paramAt, hid, UniValue.type, UniValue.get_bool]
        | num n => simp [paramAt, hid, UniValue.type, UniValue.get_bool]
        | bool b1 => simp [paramAt, hid, UniValue.type, UniValue.get_bool]
    · intro pre s post hp1 hpre hnull
      subst hp1
      have hparse := parseTxids_null ctx s post hnull pre [] hpre
      rcases hthird with h3 | ⟨b, h3⟩ <;> subst h3
      · unfold getcrossnotarization getcrossnotarizationArgs
        simp [paramAt, hid, hparse]
      · unfold getcrossnotarization getcrossnotarizationArgs
        simp [paramAt, hid, hparse, UniValue.get_bool]

/-- C24, amended, on `contextOf false`: a number and the string "00" as chain id, the
number 5 as second argument, and the array of "51" and "00" as second argument. -/
theorem invalid_parameter_before_state_witness :
    (getcrossnotarization (contextOf false) (rootedNode [] []) false
        [.num 3, .arr [], .bool true] = .threw "Invalid chainid" ∧
      getnotarizationdata (contextOf false) (rootedNode [] []) false [.num 3]
        = .threw "Invalid chainid") ∧
    (getcrossnotarization (contextOf false) (rootedNode [] []) false
        [.str "00", .arr [], .bool true] = .threw "Invalid chainid" ∧
      getnotarizationdata (contextOf false) (rootedNode [] []) false [.str "00", .arr []]
        = .threw "Invalid chainid") ∧
    getcrossnotarization (contextOf false) (rootedNode [] []) false
        [.str chainSeven, .num 5, .bool true]
      = .threw ("Invalid second parameter object type: " ++ toString (UniValue.num 5).type) ∧
    getcrossnotarization (contextOf false) (rootedNode [] []) false
        [.str chainSeven, .arr ([.str "51"] ++ .str "00" :: [])]
      = .threw ("Invalid parameter for notarization ID: " ++ "00") :=
  ⟨⟨((invalid_parameter_before_state (contextOf false) (rootedNode [] []) (.num 3) (.arr [])
        [] (Or.inl rfl)).1 (by intro s hs; cases hs)).1 [.bool true] (by decide),
      ((invalid_parameter_before_state (contextOf false) (rootedNode [] []) (.num 3) (.arr [])
        [] (Or.inl rfl)).1 (by intro s hs; cases hs)).2.1⟩,
    ⟨((invalid_parameter_before_state (contextOf false) (rootedNode [] []) (.str "00") (.arr [])
        [] (Or.inl rfl)).1 (by intro s hs; cases hs; decide)).1 [.bool true] (by decide),
      ((invalid_parameter_before_state (contextOf false) (rootedNode [] []) (.str "00") (.arr [])
        [] (Or.inl rfl)).1 (by intro s hs; cases hs; decide)).2.2⟩,
    ((invalid_parameter_before_state (contextOf false) (rootedNode [] []) (.str chainSeven)
        (.num 5) [.bool true] (Or.inr ⟨true, rfl⟩)).2 ⟨chainSeven, rfl, by decide⟩).1
      (by intro vs h; cases h),
    ((invalid_parameter_before_state (contextOf false) (rootedNode [] []) (.str chainSeven)
        (.arr ([.str "51"] ++ .str "00" :: [])) [] (Or.inl rfl)).2
          ⟨chainSeven, rfl, by decide⟩).2
      [.str "51"] "00" [] rfl
      (by
        intro v hv
        simp only [List.mem_singleton] at hv
        subst hv
        exact ⟨"51", rfl, by decide⟩)
      (by decide)⟩

/-! ## The merge-mining table -/

theorem PruneOldChains_length (ctx : RpcContext) (pruneBefore : Int)
    (chains : List CPBaaSMergeMinedChainData) :
    (PruneOldChains ctx pruneBefore chains).length ≤ chains.length := by
  unfold PruneOldChains
  exact List.length_filter_le _ _

theorem minIndex_lt : ∀ (l : List Nat), l ≠ [] → minIndex l < l.length := by
  intro l
  induction l with
  | nil => intro h; exact absurd rfl h
  | cons a rest ih =>
      intro _
      cases rest with
      | nil => simp [minIndex]
      | cons b rest1 =>
          have hrec := ih (by simp)
          unfold minIndex
          split_ifs
          · simp only [List.length_cons] at hrec ⊢
            omega
          · simp

theorem AddMergedBlock_length (ctx : RpcContext) (chains : List CPBaaSMergeMinedChainData)
    (blkData : CPBaaSMergeMinedChainData) (h : chains.length ≤ MAX_MERGE_CHAINS) :
    (AddMergedBlock ctx chains blkData).2.length ≤ MAX_MERGE_CHAINS := by
  unfold AddMergedBlock
  split_ifs with hlt
  · simp only [List.length_append, List.length_singleton]
    omega
  · simp only
    cases hocc : chains[minIndex (chains.map ctx.estimatedROI)]? with
    | none => exact h
    | some occupant =>
        simp only
        split_ifs
        · have hidx : minIndex (chains.map ctx.estimatedROI) < chains.length :=
            (List.getElem?_eq_some_iff.1 hocc).1
          simp only [List.length_append, List.length_singleton, List.length_eraseIdx, hidx,
            if_true]
          omega
        · exact h

theorem addmergedblockChecked_table (ctx : RpcContext) (st : NodeState)
    (chains : List CPBaaSMergeMinedChainData) (hexdata : UniValue) (name rpchost : String)
    (rpcport : Int) (rpcuserpass : String) :
    (addmergedblockChecked ctx st chains hexdata name rpchost rpcport rpcuserpass).1
        = PruneOldChains ctx (ctx.GetAdjustedTime - 60000) chains ∨
    ∃ blkData, addmergedblockChecked ctx st chains hexdata name rpchost rpcport rpcuserpass
        = admitBlock ctx (PruneOldChains ctx (ctx.GetAdjustedTime - 60000) chains) blkData := by
  have tail : ∀ (pruned : List CPBaaSMergeMinedChainData)
      (looked : Bool × CPBaaSChainDefinition),
      (if !looked.1 then (pruned, Outcome.threw "chain not found")
        else
          match hexdata.get_str with
          | .threw code => (pruned, Outcome.threw code)
          | .undefined => (pruned, Outcome.undefined)
          | .ret hex =>
              match ctx.DecodeHexBlk hex with
              | none => (pruned, Outcome.ret (some "deserialize-invalid"))
              | some blk =>
                  admitBlock ctx pruned
                    { chainDefinition := looked.2, rpcHost := rpchost, rpcPort := rpcport
                      rpcUserPass := rpcuserpass, block := blk }).1 = pruned ∨
      ∃ blkData,
        (if !looked.1 then (pruned, Outcome.threw "chain not found")
          else
            match hexdata.get_str with
            | .threw code => (pruned, Outcome.threw code)
            | .undefined => (pruned, Outcome.undefined)
            | .ret hex =>
                match ctx.DecodeHexBlk hex with
                | none => (pruned, Outcome.ret (some "deserialize-invalid"))
                | some blk =>
                    admitBlock ctx pruned
                      { chainDefinition := looked.2, rpcHost := rpchost, rpcPort := rpcport
                        rpcUserPass := rpcuserpass, block := blk }) = admitBlock ctx pruned blkData := by
    intro pruned looked
    cases hl : looked.1 with
    | false => exact Or.inl rfl
    | true =>
        cases hexdata.get_str with
        | threw code => exact Or.inl rfl
        | undefined => exact Or.inl rfl
        | ret hex =>
            simp only [Bool.not_true, Bool.false_eq_true, if_false]
            cases ctx.DecodeHexBlk hex with
            | none => exact Or.inl rfl
            | some blk => exact Or.inr ⟨_, rfl⟩
  exact tail _ _

/-- C25, as stated, fails: on `staleTable`, whose first candidate is older than the cutoff
40000, a call with the port 0 is rejected for its connection parameters and leaves the
table as it was, the old candidate included; the same call with a valid port prunes it. -/
theorem invalid_connection_skips_prune :
    (contextOf true).GetAdjustedTime - 60000 = 40000 ∧
    (contextOf true).entryTime (candidate 100 5) = 100 ∧
    addmergedblock (contextOf true) registryNode staleTable false (mergeParams 0)
      = (staleTable,
          .threw "must provide valid RPC connection parameters to merge mine") ∧
    candidate 100 5 ∈ (addmergedblock (contextOf true) registryNode staleTable false
      (mergeParams 0)).1 ∧
    PruneOldChains (contextOf true) 40000 staleTable = [candidate 100000 6] ∧
    addmergedblock (contextOf true) registryNode staleTable false (mergeParams 27486)
      = ([candidate 100000 6, candidate 100000 1], .ret none) :=
  ⟨rfl, rfl, rfl, by decide, rfl, rfl⟩

/-- C25, amended: a call of `addmergedblock` with a non-empty name and valid connection
parameters prunes the table of the candidates older than the adjusted time minus 60000
before anything else: it ends with the pruned table, or with what the admission makes of
the pruned table; a call with invalid connection parameters throws and leaves the table
as it was. -/
theorem prune_precedes_admission (ctx : RpcContext) (st : NodeState)
    (chains : List CPBaaSMergeMinedChainData) (hexdata : UniValue) (name rpchost : String)
    (rpcport : Int) (rpcuserpass : String)
    (hport : -(2 : Int) ^ 31 ≤ rpcport ∧ rpcport < (2 : Int) ^ 31) (hname : name ≠ "") :
    ((rpchost ≠ "" ∧ rpcport ≠ 0 ∧ rpcuserpass ≠ "") →
      (addmergedblock ctx st chains false
          [hexdata, .str name, .str rpchost, .num rpcport, .str rpcuserpass]).1
        = PruneOldChains ctx (ctx.GetAdjustedTime - 60000) chains ∨
      ∃ blkData, addmergedblock ctx st chains false
          [hexdata, .str name, .str rpchost, .num rpcport, .str rpcuserpass]
        = admitBlock ctx (PruneOldChains ctx (ctx.GetAdjustedTime - 60000) chains) blkData) ∧
    ((rpchost = "" ∨ rpcport = 0 ∨ rpcuserpass = "") →
      addmergedblock ctx st chains false
          [hexdata, .str name, .str rpchost, .num rpcport, .str rpcuserpass]
        = (chains, .threw "must provide valid RPC connection parameters to merge mine")) := by
  have hstep : addmergedblock ctx st chains false
      [hexdata, .str name, .str rpchost, .num rpcport, .str rpcuserpass]
      = if rpchost == "" || rpcport == 0 || rpcuserpass == "" then
          (chains, .threw "must provide valid RPC connection parameters to merge mine")
        else addmergedblockChecked ctx st chains hexdata name rpchost rpcport rpcuserpass := by
    have hrange : (-2147483648 : Int) ≤ rpcport ∧ rpcport < 2147483648 := by
      constructor <;> omega
    unfold addmergedblock
    simp [paramAt, UniValue.get_str, UniValue.get_int, hrange, hname]
  constructor
  · rintro ⟨hh, hp, hu⟩
    have hcond : (rpchost == "" || rpcport == 0 || rpcuserpass == "") = false := by
      simp [hh, hp, hu]
    rw [hstep, hcond]
    exact addmergedblockChecked_table ctx st chains hexdata name rpchost rpcport rpcuserpass
  · intro hbad
    have hcond : (rpchost == "" || rpcport == 0 || rpcuserpass == "") = true := by
      rcases hbad with h | h | h <;> simp [h]
    rw [hstep, hcond]
    rfl

/-- C25, amended, on `staleTable`: the call with the port 27486 ends with what the
admission makes of the pruned table, the call with the port 0 with the table as it
was. -/
theorem prune_precedes_admission_witness :
    ((addmergedblock (contextOf true) registryNode staleTable false
          [.str "00", .str "TESTCHAIN", .str "127.0.0.1", .num 27486, .str "user:pass"]).1
        = PruneOldChains (contextOf true) ((contextOf true).GetAdjustedTime - 60000) staleTable ∨
      ∃ blkData, addmergedblock (contextOf true) registryNode staleTable false
          [.str "00", .str "TESTCHAIN", .str "127.0.0.1", .num 27486, .str "user:pass"]
        = admitBlock (contextOf true)
            (PruneOldChains (contextOf true) ((contextOf true).GetAdjustedTime - 60000)
              staleTable) blkData) ∧
    addmergedblock (contextOf true) registryNode staleTable false
        [.str "00", .str "TESTCHAIN", .str "127.0.0.1", .num 0, .str "user:pass"]
      = (staleTable, .threw "must provide valid RPC connection parameters to merge mine") :=
  ⟨(prune_precedes_admission (contextOf true) registryNode staleTable (.str "00") "TESTCHAIN"
      "127.0.0.1" 27486 "user:pass" (by decide) (by decide)).1 (by decide),
    (prune_precedes_admission (contextOf true) registryNode staleTable (.str "00") "TESTCHAIN"
      "127.0.0.1" 0 "user:pass" (by decide) (by decide)).2 (Or.inr (Or.inl rfl))⟩

/-- C26: a table within the capacity 8 stays within it under an admission and under a whole
call of `addmergedblock`, so it never holds more than 8 candidates after any sequence of
admissions from the empty table; and a candidate whose estimated ROI is below
that of every occupant of a full table is rejected, the table is left as it was and the
value returned at line 990 is "blocksfull". -/
theorem merge_table_within_capacity (ctx : RpcContext) :
    (∀ chains blkData, chains.length ≤ MAX_MERGE_CHAINS →
      (AddMergedBlock ctx chains blkData).2.length ≤ MAX_MERGE_CHAINS) ∧
    (∀ st chains fHelp params, chains.length ≤ MAX_MERGE_CHAINS →
      (addmergedblock ctx st chains fHelp params).1.length ≤ MAX_MERGE_CHAINS) ∧
    (∀ candidates : List CPBaaSMergeMinedChainData,
      (candidates.foldl (fun table c => (AddMergedBlock ctx table c).2) []).length
        ≤ MAX_MERGE_CHAINS) ∧
    (∀ chains blkData, chains.length = MAX_MERGE_CHAINS →
      (∀ occupant ∈ chains, ctx.estimatedROI blkData < ctx.estimatedROI occupant) →
      AddMergedBlock ctx chains blkData = (false, chains) ∧
      admitBlock ctx chains blkData = (chains, .ret (some "blocksfull"))) := by
  have hfull : ∀ chains blkData, chains.length = MAX_MERGE_CHAINS →
      (∀ occupant ∈ chains, ctx.estimatedROI blkData < ctx.estimatedROI occupant) →
      AddMergedBlock ctx chains blkData = (false, chains) := by
    intro chains blkData hlen hlow
    unfold AddMergedBlock
    have hnlt : ¬ chains.length < MAX_MERGE_CHAINS := by omega
    simp only [hnlt, if_false]
    cases hocc : chains[minIndex (chains.map ctx.estimatedROI)]? with
    | none => rfl
    | some occupant =>
        have hmem : occupant ∈ chains := List.getElem?_mem hocc
        have hno : ¬ ctx.estimatedROI occupant < ctx.estimatedROI blkData := by
          have := hlow occupant hmem
          omega
        simp only [hno, if_false]
  have hcall : ∀ (st : NodeState) (chains : List CPBaaSMergeMinedChainData) ( fHelp : Bool)
      (params : List UniValue), chains.length ≤ MAX_MERGE_CHAINS →
      (addmergedblock ctx st chains fHelp params).1.length ≤ MAX_MERGE_CHAINS := by
    intro st chains fHelp params hlen
    have hchecked : ∀ hexdata name rpchost rpcport rpcuserpass,
        (addmergedblockChecked ctx st chains hexdata name rpchost rpcport rpcuserpass).1.length
          ≤ MAX_MERGE_CHAINS := by
      intro hexdata name rpchost rpcport rpcuserpass
      have hpr := PruneOldChains_length ctx (ctx.GetAdjustedTime - 60000) chains
      rcases addmergedblockChecked_table ctx st chains hexdata name rpchost rpcport rpcuserpass
        with h | ⟨blkData, h⟩
      · rw [h]; omega
      · rw [h]
        exact AddMergedBlock_length ctx _ blkData (by omega)
    unfold addmergedblock
    split_ifs
    · exact hlen
    · cases (paramAt params 1).get_str with
      | threw code => exact hlen
      | undefined => exact hlen
      | ret name =>
          simp only
          split_ifs
          · exact hlen
          · cases (paramAt params 2).get_str with
            | threw code => exact hlen
            | undefined => exact hlen
            | ret rpchost =>
                simp only
                cases (paramAt params 3).get_int with
                | threw code => exact hlen
                | undefined => exact hlen
                | ret rpcport =>
                    simp only
                    cases (paramAt params 4).get_str with
                    | threw code => exact hlen
                    | undefined => exact hlen
                    | ret rpcuserpass =>
                        simp only
                        split_ifs
                        · exact hlen
                        · exact hchecked _ _ _ _ _
  refine ⟨fun chains blkData h => AddMergedBlock_length ctx chains blkData h, hcall, ?_, ?_⟩
  · intro candidates
    have hgen : ∀ (cs : List CPBaaSMergeMinedChainData) (table : List CPBaaSMergeMinedChainData),
        table.length ≤ MAX_MERGE_CHAINS →
        (cs.foldl (fun table c => (AddMergedBlock ctx table c).2) table).length
          ≤ MAX_MERGE_CHAINS := by
      intro cs
      induction cs with
      | nil => intro table h; exact h
      | cons c rest ih =>
          intro table h
          exact ih _ (AddMergedBlock_length ctx table c h)
    exact hgen candidates [] (by simp [MAX_MERGE_CHAINS])
  · intro chains blkData hlen hlow
    have hrej := hfull chains blkData hlen hlow
    refine ⟨hrej, ?_⟩
    unfold admitBlock
    rw [hrej]
    rfl

/-- C26 on `fullTable`, eight candidates with the estimated ROI 10 to 17: a candidate with
the estimated ROI 1 is rejected with "blocksfull" and the table is left as it was, and a
candidate added to any table within the capacity leaves it within the capacity. -/
theorem merge_table_within_capacity_witness :
    fullTable.length = MAX_MERGE_CHAINS ∧
    (∀ occupant ∈ fullTable,
      (contextOf true).estimatedROI (candidate 100000 1)
        < (contextOf true).estimatedROI occupant) ∧
    AddMergedBlock (contextOf true) fullTable (candidate 100000 1) = (false, fullTable) ∧
    admitBlock (contextOf true) fullTable (candidate 100000 1)
      = (fullTable, .ret (some "blocksfull")) ∧
    (AddMergedBlock (contextOf true) fullTable (candidate 100000 20)).2.length
      ≤ MAX_MERGE_CHAINS :=
  ⟨rfl, by decide,
    ((merge_table_within_capacity (contextOf true)).2.2.2 fullTable (candidate 100000 1) rfl
      (by decide)).1,
    ((merge_table_within_capacity (contextOf true)).2.2.2 fullTable (candidate 100000 1) rfl
      (by decide)).2,
    (merge_table_within_capacity (contextOf true)).1 fullTable (candidate 100000 20)
      (by decide)⟩

/-! ## Settled properties of the fork list, the peer loop and the proof leaf -/

/-- C27: on `competingChain`, where the transactions 12 and 15 both extend the confirmed
notarization of transaction 11 and 13, 14 follow 12, the loop of lines 382-420 completes
and leaves an empty fork. The entries of 13 and 14 start forks of their own (their parents
are recorded under block hashes), so three forks exist and `forks` has the capacity 4 when
the last entry arrives; it finds its parent at position 0 of the fork `[0, 1]`, the
half-open range `[0, 0)` is appended as a new fork without a reallocation, and the
parent's fork becomes `[4]`. The selection of lines 427-434 then reads `back()` of the
empty fork, which is undefined, and so is the call. -/
theorem empty_fork_reaches_selection :
    ∃ scan st fs,
      competingChain.GetAddressUnspent 7 = some [⟨12, 0⟩, ⟨13, 0⟩, ⟨14, 0⟩, ⟨15, 0⟩] ∧
      scanOutputs competingChain [⟨12, 0⟩, ⟨13, 0⟩, ⟨14, 0⟩, ⟨15, 0⟩] ScanState.init
        = .ret scan ∧
      scan.sorted.map Prod.snd
        = [(22, extendingTx.notarization), (23, (followerTx 13 12 30).notarization),
            (24, (followerTx 14 13 40).notarization), (25, rivalTx.notarization)] ∧
      forkLoop (((11, rootNotarization) :: scan.sorted.map Prod.snd).take 4) 0
        { forks := [], references := [] } = some st ∧
      st.forks = [[0, 1], [2], [3]] ∧
      st.capacity = 4 ∧
      forkLoop ((11, rootNotarization) :: scan.sorted.map Prod.snd) 0
        { forks := [], references := [] } = some fs ∧
      fs.forks = [[4], [2], [3], []] ∧
      [] ∈ fs.forks ∧
      bestLoop ((11, rootNotarization) :: scan.sorted.map Prod.snd) fs.forks 0
        CChainPower.default = none ∧
      GetNotarizationData competingChain 7 2 CChainNotarizationData.fresh = .undefined :=
  ⟨_, _, _, rfl, rfl, rfl, rfl, rfl, rfl, rfl, rfl, by decide, rfl, rfl⟩

/-- C28: with any non-empty list of peers and any value of `i` left by the search of lines
668-674, the loop of lines 734-743 does not complete: its condition `j < vNodes.size()`
never changes, `i` is incremented instead, and `vNodes[i]` is read past the last peer; no
call that reaches the loop with a peer connected builds its result. -/
theorem peer_loop_never_completes (vNodes : List CNode) (i : Nat) (h : vNodes ≠ []) :
    collectPeers vNodes i = .undefined ∧
    ∀ (st : NodeState) (tx : CTransaction) (blkHash : uint256) (loc : Located)
      (locals : CrossLocals),
      st.vNodes = vNodes → buildProof st tx blkHash loc ≠ .ret locals := by
  refine ⟨collectPeers_of_peers vNodes i h, ?_⟩
  intro st tx blkHash loc locals hst
  unfold buildProof
  simp only
  cases loc.addressIndex[loc.i]? with
  | none => simp
  | some key =>
      simp only
      cases stripOpRet tx with
      | none => simp
      | some strippedTx =>
          simp only
          rw [collectPeers_of_peers st.vNodes loc.i (by rw [hst]; exact h)]
          simp

/-- C28 on `rootedNode` with an inbound and an outbound peer connected: the peers cannot be
collected from index 0, and the call, which finds a match and locates the transaction, ends
in undefined behaviour. -/
theorem peer_loop_never_completes_witness :
    [inboundPeer, outboundPeer] ≠ [] ∧
    (collectPeers [inboundPeer, outboundPeer] 0 = .undefined ∧
      ∀ (st : NodeState) (tx : CTransaction) (blkHash : uint256) (loc : Located)
        (locals : CrossLocals),
        st.vNodes = [inboundPeer, outboundPeer] → buildProof st tx blkHash loc ≠ .ret locals) ∧
    crossNotarizationFrom (rootedNode [⟨11, 5⟩] [inboundPeer, outboundPeer]) 7 2 [81]
      = .undefined :=
  ⟨by decide, peer_loop_never_completes [inboundPeer, outboundPeer] 0 (by decide), rfl⟩

/-- C29: on `rootedNode` with the matched transaction 11 as the only entry of the address
index of its height, at index 5 of its block, the branch of line 699 is the one
`GetMerkleBranch` computes for index 5 and the leaf index stored with it is 0, the position
`i` of the entry in the address index. -/
theorem proof_leaf_is_list_position :
    locateTx (rootedNode [⟨11, 5⟩] []) 7 (confirmedRoot [finalizationOut, opRetOut]) 21
      = .ret { proofheight := 9, prevHeight := 1, addressIndex := [⟨11, 5⟩], i := 0 } ∧
    (rootedNode [⟨11, 5⟩] []).GetMerkleBranch 21 5 = [6005] ∧
    ∃ R locals, crossNotarizationFrom (rootedNode [⟨11, 5⟩] []) 7 2 [81] = .ret R ∧
      R.built = some locals ∧
      locals.txProofLeaf = { nIndex := 0, branch := [6005] } ∧
      locals.txProofLeaf.nIndex ≠ 5 :=
  ⟨rfl, rfl, ⟨_, _, rfl, rfl, rfl, by decide⟩⟩

/-- C30: `GetNotarizationData` gives the same outcome, the same returned value, error and
notarization data, for any two evaluation codes, the chain id, the chain state and the
data passed in being the same; in particular for the accepted and the earned selector of a
node. -/
theorem outcome_independent_of_ecode (env : ChainState) (chainID : uint160) (e1 e2 : Nat)
    (notarizationData : CChainNotarizationData) (st : NodeState) :
    GetNotarizationData env chainID e1 notarizationData
      = GetNotarizationData env chainID e2 notarizationData ∧
    GetNotarizationData st.chain chainID st.EVAL_ACCEPTEDNOTARIZATION notarizationData
      = GetNotarizationData st.chain chainID st.EVAL_EARNEDNOTARIZATION notarizationData :=
  ⟨rfl, rfl⟩

end PBaaS
